import Mathlib

/-!
Verification of the POD (plain old documentation) parser in `src/pod.cpp` /
`pod.hpp` (namespace `Pod`).  The parser is embedded shallowly: strings are
`List Char`, the token stream is a `List PodNode`, the parser state is an
explicit record, and C++ exceptions / undefined behaviour (out-of-range
`substr`, `std::stof` on non-numeric input, out-of-range indexing) are
modelled as `Except Err` errors.  Warnings printed to `std::cerr` are
collected in a list.  All definitions are translated from the C++ source;
functions are named after their C++ counterparts where Lean allows.
-/

set_option maxHeartbeats 1000000

namespace Pod

/-- C++ `enum class mtype` (pod.hpp): the inline formatting-code kinds. -/
inductive Mtype where
  | none
  | italic
  | bold
  | code
  | filename
  | nbsp
  | zap
  | escape
  | index
  | link
deriving DecidableEq, Repr

/-- C++ `enum class OverListType` (pod.hpp). -/
inductive OverListType where
  | unordered
  | ordered
  | description
deriving DecidableEq, Repr

/-- The node variants of the C++ `PodNode` class hierarchy (pod.hpp).
`over` stores the raw `=over` indent argument instead of the parsed
`float m_indent` (the float value is write-only in the source: it is never
read by any other member), plus the back-patchable list type.
The two resolver callback pointers of `PodNodeInlineMarkupStart` are
rendering-only state and carry no parse information, so they are omitted. -/
inductive PodNode where
  | headStart (level : Nat) (content : List Char)
  | headEnd (level : Nat)
  | over (indentArg : Option (List Char)) (listType : OverListType)
  | itemStart (label : List Char) (listType : OverListType)
  | itemEnd (listType : OverListType)
  | back (listType : OverListType)
  | paraStart
  | paraEnd
  | inlineText (text : List Char)
  | inlineMarkupStart (t : Mtype) (args : List (List Char))
  | inlineMarkupEnd (t : Mtype) (args : List (List Char))
  | data (body : List Char) (args : List (List Char))
  | verbatim (text : List Char)
deriving DecidableEq, Repr

/-- The warnings the parser prints to `std::cerr`, with the 1-based source
line number `m_lino` current at emission time.  The message text itself is
not modelled, only which diagnostic fired. -/
inductive Warning where
  | zapNested (lino : Nat)
  | escapeNested (lino : Nat)
  | indexNested (lino : Nat)
  | linkTargetFormatting (lino : Nat)
  | unknownFormattingCode (lino : Nat)
  | emptyOverBlock (lino : Nat)
  | forMissingArgument (lino : Nat)
  | encodingIgnored (lino : Nat)
  | unknownCommand (lino : Nat) (cmd : List Char)
deriving DecidableEq, Repr

/-- The abrupt-termination events of the C++ code: thrown library exceptions
(`std::stof`'s `std::invalid_argument`, `std::string::substr`'s
`std::out_of_range`), undefined behaviour from out-of-range element access
(`std::vector::operator[]`, `std::string::operator[]`), and the
`std::runtime_error` thrown by `find_preceeding_inline_markup_start`. -/
inductive Err where
  | stofInvalidArgument
  | vectorIndexOutOfRange
  | substrOutOfRange
  | stringIndexOutOfRange
  | noPrecedingInlineMarkupStart
deriving DecidableEq, Repr

/-- C++ `enum class PodParser::mode` (pod.hpp). -/
inductive PMode where
  | none
  | command
  | verbatim
  | ordinary
  | data
  | cut
deriving DecidableEq, Repr

/-- One open inline-markup frame: C++ `struct markupel` in `parse_inline`. -/
structure PodFrame where
  angle_count : Nat
  type : Mtype
deriving DecidableEq, Repr

/-- The mutable fields of C++ `class PodParser` that influence parsing
(callback pointers omitted; `m_source_markup` is passed as an argument). -/
structure PState where
  lino : Nat
  mode : PMode
  link_bar_found : Bool
  verbatim_lead_space : Nat
  tokens : List PodNode
  current_buffer : List Char
  data_end_tag : List Char
  data_args : List (List Char)
  idx_keywords : List (List Char × List Char)
  ecode : List Char
  idx_kw : List Char
  link_content : List Char
  warnings : List Warning
deriving DecidableEq, Repr

/-- The freshly constructed parser state (all buffers empty; the fields that
`Parse` re-initialises start at exactly these values too). -/
def initState : PState :=
  { lino := 0, mode := PMode.none, link_bar_found := false,
    verbatim_lead_space := 0, tokens := [], current_buffer := [],
    data_end_tag := [], data_args := [], idx_keywords := [], ecode := [],
    idx_kw := [], link_content := [], warnings := [] }

/-- Whitespace as recognised by `std::istream` extraction (`operator>>`)
and by `std::stof`'s leading-whitespace skip. -/
def isStreamSpace (c : Char) : Bool :=
  c = ' ' || c = '\t' || c = '\n' || c = '\x0b' || c = '\x0c' || c = '\x0d'

/-- Decimal digit test, matching the C++ comparisons against `'0'`/`'9'`. -/
def isDigitChar (c : Char) : Bool :=
  '0' ≤ c && c ≤ '9'

/-- Helper for `splitWS`: accumulates the current word in reverse. -/
def splitWSAux : List Char → List Char → List (List Char)
  | [], acc => if acc = [] then [] else [acc.reverse]
  | c :: rest, acc =>
      if isStreamSpace c then
        if acc = [] then splitWSAux rest []
        else acc.reverse :: splitWSAux rest []
      else splitWSAux rest (c :: acc)

/-- Whitespace-splitting into words, modelling the
`std::istream_iterator<std::string>` idiom used at the top of
`PodParser::parse_command` (pod.cpp line 211). Words are nonempty. -/
def splitWS (s : List Char) : List (List Char) :=
  splitWSAux s []

/-- Splits a character stream into lines the way the `std::getline` loop in
`PodParser::Parse` does: lines are `\n`-terminated or end at end-of-input;
a trailing `\n` does not produce an extra empty line. -/
def getlines : List Char → List (List Char)
  | [] => []
  | c :: rest =>
      if c = '\n' then [] :: getlines rest
      else
        match getlines rest with
        | [] => [[c]]
        | l :: ls => (c :: l) :: ls

/-- C++ `Pod::count_leading_whitespace` (pod.cpp line 1129): counts leading
spaces and tabs.  (The C++ loop stops at the terminating NUL of the string,
which equals stopping at the first non-space non-tab character.) -/
def count_leading_whitespace (s : List Char) : Nat :=
  (s.takeWhile (fun c => c = ' ' || c = '\t')).length

/-- C++ `Pod::join_vectorstr` (pod.cpp line 1137). -/
def join_vectorstr (vec : List (List Char)) (sep : List Char) : List Char :=
  match vec with
  | [] => []
  | x :: xs => x ++ (xs.map (fun y => sep ++ y)).flatten

/-- `std::string::substr(pos)`: throws `std::out_of_range` when
`pos > size()`, otherwise yields the suffix. -/
def substrFromE (s : List Char) (pos : Nat) : Except Err (List Char) :=
  if pos ≤ s.length then Except.ok (s.drop pos) else Except.error Err.substrOutOfRange

/-- Whether `std::stof` succeeds on this string (used for the `=over` indent
argument, pod.cpp line 250).  `stof` skips leading whitespace, accepts an
optional sign and then needs a digit, a `.` followed by a digit, or an
`inf`/`nan` form; otherwise it throws `std::invalid_argument`.  The numeric
value itself is not modelled because `PodNodeOver::m_indent` is never read. -/
def stofAccepts (s : List Char) : Bool :=
  let s1 := s.dropWhile isStreamSpace
  let s2 := match s1 with
    | c :: rest => if c = '+' || c = '-' then rest else s1
    | [] => []
  match s2 with
  | [] => false
  | c :: rest =>
      isDigitChar c
      || (c = '.' && (match rest with | d :: _ => isDigitChar d | [] => false))
      || (c.toLower = 'i' && (match rest with
            | d :: e :: _ => d.toLower = 'n' && e.toLower = 'f'
            | _ => false))
      || (c.toLower = 'n' && (match rest with
            | d :: e :: _ => d.toLower = 'a' && e.toLower = 'n'
            | _ => false))

/-- C++ `Pod::html_escape` (pod.cpp line 1150) applied to a one-character
string, which is the only way `parse_inline` ever calls it: `&` becomes
`&amp;`, `<` becomes `&lt;`, `>` becomes `&gt;`, and with the `nbsp` flag a
space becomes `&nbsp;`. -/
def htmlEscapeChar (c : Char) (nbsp : Bool) : List Char :=
  if c = '&' then "&amp;".data
  else if c = '<' then "&lt;".data
  else if c = '>' then "&gt;".data
  else if nbsp && c = ' ' then "&nbsp;".data
  else [c]

/-- Character-wise HTML escaping of a whole string (no `nbsp`), the net
effect of `parse_inline` pushing each plain character through
`Pod::html_escape`. -/
def htmlEscapeString (s : List Char) : List Char :=
  (s.map (fun c => htmlEscapeChar c false)).flatten

/-- `std::map::operator[]` followed by assignment: insert or overwrite. -/
def mapInsert : List (List Char × List Char) → List Char → List Char →
    List (List Char × List Char)
  | [], k, v => [(k, v)]
  | (k', v') :: rest, k, v =>
      if k' = k then (k, v) :: rest else (k', v') :: mapInsert rest k v

/-- Lookup in the index-keyword table. -/
def mapLookup : List (List Char × List Char) → List Char → Option (List Char)
  | [], _ => Option.none
  | (k', v') :: rest, k => if k' = k then some v' else mapLookup rest k

/-- Net signed count of `inlineMarkupStart` minus `inlineMarkupEnd` nodes of
kind `t`: the value of the `level` counter after the loop of
C++ `PodParser::is_inline_mode_active` (pod.cpp line 656), which adds the
contributions of the token stream's nodes in some order. -/
def inlineMarkupLevel : List PodNode → Mtype → Int
  | [], _ => 0
  | n :: rest, t =>
      (match n with
       | PodNode.inlineMarkupEnd t' _ => if t' = t then (-1 : Int) else 0
       | PodNode.inlineMarkupStart t' _ => if t' = t then (1 : Int) else 0
       | _ => 0) + inlineMarkupLevel rest t

/-- C++ `PodParser::is_inline_mode_active` (pod.cpp line 656): true when the
whole token stream holds more markup starts of kind `t` than ends. -/
def is_inline_mode_active (tokens : List PodNode) (t : Mtype) : Bool :=
  decide (0 < inlineMarkupLevel tokens t)

/-- Appending visible text: extend the trailing `PodNodeInlineText` if the
stream ends in one (`dynamic_cast` + `AddText`), otherwise push a new text
node (pod.cpp lines 524-527 and 564-570). -/
def pushText (tokens : List PodNode) (s : List Char) : List PodNode :=
  match tokens.getLast? with
  | some (PodNode.inlineText t) => tokens.dropLast ++ [PodNode.inlineText (t ++ s)]
  | _ => tokens ++ [PodNode.inlineText s]

/-- The loop of `PodNodeInlineText::StripTrailingWhitespace` (pod.cpp line
907) viewed from the end of the string.  When the text runs out the C++
loop evaluates `m_text[m_text.length()-1]` on the empty string; `length()-1`
wraps around to `SIZE_MAX`, an out-of-range access (undefined behaviour),
modelled as `Err.stringIndexOutOfRange`. -/
def stripTrailingRev : List Char → Except Err (List Char)
  | [] => Except.error Err.stringIndexOutOfRange
  | c :: rest => if c = ' ' then stripTrailingRev rest else Except.ok (c :: rest)

/-- C++ `PodNodeInlineText::StripTrailingWhitespace` (pod.cpp line 907). -/
def stripTrailingWhitespace (s : List Char) : Except Err (List Char) :=
  match stripTrailingRev s.reverse with
  | Except.ok r => Except.ok r.reverse
  | Except.error e => Except.error e

/-- The `StripTrailingWhitespace` call guarded by the `dynamic_cast` on
`m_tokens.back()` (pod.cpp lines 478, 486-487): only performed when the
last token is an inline-text node. -/
def stripLastText (tokens : List PodNode) : Except Err (List PodNode) :=
  match tokens.getLast? with
  | some (PodNode.inlineText s) =>
      match stripTrailingWhitespace s with
      | Except.ok s' => Except.ok (tokens.dropLast ++ [PodNode.inlineText s'])
      | Except.error e => Except.error e
  | _ => Except.ok tokens

/-- The backward scan of C++
`PodParser::find_preceeding_inline_markup_start` (pod.cpp line 629) fused
with the subsequent `AddArgument` call (pod.cpp line 505): walks the
reversed token stream, counts unmatched markup ends in `level`, and appends
`arg` to the argument list of the first markup start found at level 0 whose
kind matches `t` (or any start when `t` is `Mtype.none`).  `Option.none`
models the `std::runtime_error` thrown when no start is found. -/
def addLinkArgRev (t : Mtype) (arg : List Char) :
    List PodNode → Nat → Option (List PodNode)
  | [], _ => Option.none
  | n :: rest, level =>
      match n with
      | PodNode.inlineMarkupEnd _ _ =>
          (addLinkArgRev t arg rest (level + 1)).map (fun r => n :: r)
      | PodNode.inlineMarkupStart t' args =>
          if 0 < level then (addLinkArgRev t arg rest (level - 1)).map (fun r => n :: r)
          else if t = Mtype.none then
            some (PodNode.inlineMarkupStart t' (args ++ [arg]) :: rest)
          else if t' = t then
            some (PodNode.inlineMarkupStart t' (args ++ [arg]) :: rest)
          else (addLinkArgRev t arg rest level).map (fun r => n :: r)
      | _ => (addLinkArgRev t arg rest level).map (fun r => n :: r)

/-- `find_preceeding_inline_markup_start(t)` + `AddArgument(arg)` on the
token stream in its natural order. -/
def addLinkArg (tokens : List PodNode) (t : Mtype) (arg : List Char) :
    Option (List PodNode) :=
  (addLinkArgRev t arg tokens.reverse 0).map List.reverse

/-- C++ `PodParser::find_preceeding_item` (pod.cpp line 581), scanning the
reversed token stream: `Back` raises the nesting level, an `Over` at level 0
ends the search, an `ItemStart` at level 0 is the result (its list type is
all the callers use). -/
def findPrecItemRev : List PodNode → Nat → Option OverListType
  | [], _ => Option.none
  | n :: rest, level =>
      match n with
      | PodNode.back _ => findPrecItemRev rest (level + 1)
      | PodNode.over _ _ =>
          if level = 0 then Option.none else findPrecItemRev rest (level - 1)
      | PodNode.itemStart _ lt =>
          if level = 0 then some lt else findPrecItemRev rest level
      | _ => findPrecItemRev rest level

/-- C++ `PodParser::find_preceeding_over` (pod.cpp line 604) fused with the
`SetListType` call (pod.cpp line 314): on the reversed token stream, `Back`
raises the level and the first `Over` at level 0 gets its list type
replaced; deeper `Over`s consume one level.  An unmatched search leaves the
stream unchanged (the C++ caller skips the patch on `nullptr`). -/
def setListTypeRev (lt : OverListType) : List PodNode → Nat → List PodNode
  | [], _ => []
  | n :: rest, level =>
      match n with
      | PodNode.back b => PodNode.back b :: setListTypeRev lt rest (level + 1)
      | PodNode.over arg old =>
          if level = 0 then PodNode.over arg lt :: rest
          else PodNode.over arg old :: setListTypeRev lt rest (level - 1)
      | _ => n :: setListTypeRev lt rest level

/-- The three block-terminator nodes that force-stop zap mode
(pod.cpp lines 695-697). -/
def isBlockEnd : PodNode → Bool
  | PodNode.headEnd _ => true
  | PodNode.itemEnd _ => true
  | PodNode.paraEnd => true
  | _ => false

/-- C++ `PodParser::zap_tokens` (pod.cpp line 684): one pass over the token
stream with an `int` nesting counter.  A block-end node while the counter is
positive resets it to 0 (the node itself survives).  A Zap markup start is
erased only when the counter was already positive, then raises it; a Zap
markup end lowers the counter and is erased only when the counter stays
positive; every other node is erased exactly when the counter is positive.
The iterator erase-and-back-up dance of the C++ loop amounts to "drop this
node and continue". -/
def zapGo : List PodNode → Int → List PodNode
  | [], _ => []
  | n :: rest, level =>
      if 0 < level ∧ isBlockEnd n then n :: zapGo rest 0
      else
        match n with
        | PodNode.inlineMarkupStart t args =>
            if t = Mtype.zap then
              if 0 < level then zapGo rest (level + 1)
              else PodNode.inlineMarkupStart t args :: zapGo rest (level + 1)
            else PodNode.inlineMarkupStart t args :: zapGo rest level
        | PodNode.inlineMarkupEnd t args =>
            if t = Mtype.zap then
              if 0 < level - 1 then zapGo rest (level - 1)
              else PodNode.inlineMarkupEnd t args :: zapGo rest (level - 1)
            else PodNode.inlineMarkupEnd t args :: zapGo rest level
        | _ =>
            if 0 < level then zapGo rest level
            else n :: zapGo rest level

/-- The formatting-letter switch of `parse_inline` (pod.cpp lines 422-464):
maps the character standing before the `<` run to a markup kind; an
unrecognised letter yields `Mtype.none` plus a warning. -/
def letterMtype (lino : Nat) (c : Char) : Mtype × List Warning :=
  if c = 'I' then (Mtype.italic, [])
  else if c = 'B' then (Mtype.bold, [])
  else if c = 'C' then (Mtype.code, [])
  else if c = 'F' then (Mtype.filename, [])
  else if c = 'X' then (Mtype.index, [])
  else if c = 'Z' then (Mtype.zap, [])
  else if c = 'L' then (Mtype.link, [])
  else if c = 'E' then (Mtype.escape, [])
  else if c = 'S' then (Mtype.nbsp, [])
  else (Mtype.none, [Warning.unknownFormattingCode lino])

/-- The markup-open branch of `parse_inline` (pod.cpp lines 400-470), entered
when the character after the current one is `<`.  `c` is the current (letter)
character and `cs` the remaining input starting at the `<` run.  Counts the
angle run, emits the nesting warnings (checked in this order: Zap active,
Escape active, Index active, link bar pending), pushes the markup-start node,
skips the spaces following the run, and returns the remaining input together
with the new stack frame. -/
def inlineOpen (c : Char) (cs : List Char) (st : PState) :
    List Char × PodFrame × PState :=
  let angle_count := (cs.takeWhile (fun ch => ch = '<')).length
  let rest := (cs.drop angle_count).dropWhile (fun ch => ch = ' ')
  let nestWarnings :=
    if is_inline_mode_active st.tokens Mtype.zap then [Warning.zapNested st.lino]
    else if is_inline_mode_active st.tokens Mtype.escape then [Warning.escapeNested st.lino]
    else if is_inline_mode_active st.tokens Mtype.index then [Warning.indexNested st.lino]
    else if st.link_bar_found then [Warning.linkTargetFormatting st.lino]
    else []
  let tw := letterMtype st.lino c
  (rest, { angle_count := angle_count, type := tw.1 },
   { st with tokens := st.tokens ++ [PodNode.inlineMarkupStart tw.1 []],
             warnings := st.warnings ++ nestWarnings ++ tw.2 })

/-- The genuine markup-close branch of `parse_inline` (pod.cpp lines
481-516): strips trailing whitespace off a trailing text node (possibly
hitting the out-of-bounds read of `StripTrailingWhitespace`), then emits the
kind-specific markup-end node: Escape carries and clears the escape buffer,
Index carries the keyword buffer with spaces replaced by underscores and
records the raw-to-normalised mapping, Link locates its markup start by the
backward scan and attaches the link-content buffer (the scan's failure is
the `std::runtime_error`), everything else is a bare end node.  Returns the
input remaining after the `>` run (the current `>` plus `angle_count - 1`
characters of `cs`). -/
def inlineClose (mel : PodFrame) (cs : List Char) (st : PState) :
    Except Err (List Char × PState) :=
  let rem := cs.drop (mel.angle_count - 1)
  match stripLastText st.tokens with
  | Except.error e => Except.error e
  | Except.ok tokens1 =>
      match mel.type with
      | Mtype.escape =>
          Except.ok (rem, { st with
            tokens := tokens1 ++ [PodNode.inlineMarkupEnd Mtype.escape [st.ecode]],
            ecode := [] })
      | Mtype.index =>
          let target := st.idx_kw.map (fun ch => if ch = ' ' then '_' else ch)
          Except.ok (rem, { st with
            tokens := tokens1 ++ [PodNode.inlineMarkupEnd Mtype.index [target]],
            idx_keywords := mapInsert st.idx_keywords st.idx_kw target,
            idx_kw := [] })
      | Mtype.link =>
          match addLinkArg tokens1 Mtype.link st.link_content with
          | Option.none => Except.error Err.noPrecedingInlineMarkupStart
          | some tokens2 =>
              Except.ok (rem, { st with
                tokens := tokens2 ++ [PodNode.inlineMarkupEnd Mtype.link []],
                link_bar_found := false,
                link_content := [] })
      | t =>
          Except.ok (rem, { st with
            tokens := tokens1 ++ [PodNode.inlineMarkupEnd t []] })

/-- The stray-angle-bracket branch of `parse_inline` (pod.cpp lines
518-533): the single `>` is HTML-escaped and appended as visible text, and
additionally recorded in the link-content buffer when a Link is active. -/
def strayStep (st : PState) : PState :=
  let st1 := { st with tokens := pushText st.tokens (htmlEscapeChar '>' false) }
  if is_inline_mode_active st.tokens Mtype.link then
    { st1 with link_content := st1.link_content ++ ['>'] }
  else st1

/-- The plain-character branch of `parse_inline` (pod.cpp lines 535-571):
with Escape active the character feeds the escape buffer, with Index active
the keyword buffer; otherwise it feeds the link-content buffer when a Link
is active (a `|` there sets the bar flag), is dropped from visible text once
the bar flag is set, and otherwise is HTML-escaped (space to `&nbsp;` while
NonBreakingSpace is active) and appended as visible text. -/
def plainStep (c : Char) (st : PState) : PState :=
  if is_inline_mode_active st.tokens Mtype.escape then
    { st with ecode := st.ecode ++ [c] }
  else if is_inline_mode_active st.tokens Mtype.index then
    { st with idx_kw := st.idx_kw ++ [c] }
  else
    let st1 :=
      if is_inline_mode_active st.tokens Mtype.link then
        { st with link_content := st.link_content ++ [c],
                  link_bar_found := st.link_bar_found || c = '|' }
      else st
    if st1.link_bar_found then st1
    else { st1 with
      tokens := pushText st1.tokens
        (htmlEscapeChar c (is_inline_mode_active st1.tokens Mtype.nbsp)) }

/-- The character loop of C++ `PodParser::parse_inline` (pod.cpp lines
399-573).  The first `fuel` argument makes the recursion structural; every
step consumes at least one character, so `fuel = input length` never runs
out.  Branch order matches the source: a following `<` opens markup (the
current character is the formatting letter); otherwise a `>` with a
nonempty frame stack closes the top frame when the `>` run matches its
recorded angle count and is stray text otherwise; all else is a plain
character. -/
def inlineGo : Nat → List Char → List PodFrame → PState → Except Err PState
  | 0, _, _, st => Except.ok st
  | _ + 1, [], _, st => Except.ok st
  | fuel + 1, c :: cs, stack, st =>
      if cs.head? = some '<' then
        let r := inlineOpen c cs st
        inlineGo fuel r.1 (r.2.1 :: stack) r.2.2
      else
        match stack with
        | mel :: srest =>
            if c = '>' then
              if (c :: cs).take mel.angle_count =
                  List.replicate mel.angle_count '>' then
                match inlineClose mel cs st with
                | Except.error e => Except.error e
                | Except.ok r => inlineGo fuel r.1 srest r.2
              else inlineGo fuel cs stack (strayStep st)
            else inlineGo fuel cs stack (plainStep c st)
        | [] => inlineGo fuel cs stack (plainStep c st)

/-- C++ `PodParser::parse_inline` (pod.cpp line 390): run the character loop
with an empty frame stack, then run the zap pass over the whole token
stream (pod.cpp line 576). -/
def parse_inline (para : List Char) (st : PState) : Except Err PState :=
  match inlineGo para.length para [] st with
  | Except.error e => Except.error e
  | Except.ok st' => Except.ok { st' with tokens := zapGo st'.tokens 0 }

/-- C++ `PodParser::parse_ordinary` (pod.cpp line 198): paragraph start
node, inline parse, paragraph end node. -/
def parse_ordinary (ordinary : List Char) (st : PState) : Except Err PState :=
  match parse_inline ordinary { st with tokens := st.tokens ++ [PodNode.paraStart] } with
  | Except.error e => Except.error e
  | Except.ok st' => Except.ok { st' with tokens := st'.tokens ++ [PodNode.paraEnd] }

/-- The `head1`..`head4` branches of `parse_command` (pod.cpp lines
219-238): the heading text is `command.substr(cmd.length()+2)` (which can in
principle throw `std::out_of_range`; the accumulated buffer always ends in a
space, so it never does). -/
def parse_head (level : Nat) (command cmd : List Char) (st : PState) :
    Except Err PState :=
  match substrFromE command (cmd.length + 2) with
  | Except.error e => Except.error e
  | Except.ok content =>
      match parse_inline content
          { st with tokens := st.tokens ++ [PodNode.headStart level content] } with
      | Except.error e => Except.error e
      | Except.ok st' =>
          Except.ok { st' with tokens := st'.tokens ++ [PodNode.headEnd level] }

/-- The definition-term loop of the `=item` branch (pod.cpp lines 277-285):
arguments are glued with spaces into `dt` until one containing `]` is
consumed; returns `dt` and the unconsumed arguments. -/
def dtLoop : List (List Char) → List Char → List Char × List (List Char)
  | [], dt => (dt, [])
  | a :: rest, dt =>
      let dt' := dt ++ a
      if ']' ∈ a then (dt', rest) else dtLoop rest (dt' ++ [' '])

/-- The label classification of `PodNodeItemStart`'s constructor (pod.cpp
line 813): `*` means unordered, a leading digit ordered, anything else a
description list.  (The C++ code indexes `m_label[0]`; every label the
parser constructs is nonempty, and `headD` returns NUL on the
never-occurring empty label, classifying it as description.) -/
def listTypeOfLabel (label : List Char) : OverListType :=
  let c := label.headD '\x00'
  if c = '*' then OverListType.unordered
  else if isDigitChar c then OverListType.ordered
  else OverListType.description

/-- The `=item` branch of `parse_command` (pod.cpp lines 252-298): close a
preceding item at the same depth, normalise a bare or wordy label to `*`,
consume a bracketed definition term if present, emit the item-start node and
parse the remaining arguments as an embedded paragraph. -/
def parse_item (args0 : List (List Char)) (st : PState) : Except Err PState :=
  let st1 :=
    match findPrecItemRev st.tokens.reverse 0 with
    | some lt => { st with tokens := st.tokens ++ [PodNode.itemEnd lt] }
    | Option.none => st
  let args1 := if args0 = [] then [['*']] else args0
  let c0 := (args1.headD []).headD '\x00'
  let args :=
    if args0 = [] then args1
    else if c0 ≠ '*' ∧ c0 ≠ '[' ∧ (c0 < '0' ∨ '9' < c0) then ['*'] :: args1
    else args1
  let c1 := (args.headD []).headD '\x00'
  let labeled :=
    if c1 = '[' then
      let dl := dtLoop args []
      ({ st1 with tokens := st1.tokens ++
          [PodNode.itemStart dl.1 (listTypeOfLabel dl.1)] }, dl.2)
    else
      ({ st1 with tokens := st1.tokens ++
          [PodNode.itemStart (args.headD []) (listTypeOfLabel (args.headD []))] },
       args.tail)
  let para := join_vectorstr labeled.2 [' ']
  match parse_inline para
      { labeled.1 with tokens := labeled.1.tokens ++ [PodNode.paraStart] } with
  | Except.error e => Except.error e
  | Except.ok st' => Except.ok { st' with tokens := st'.tokens ++ [PodNode.paraEnd] }

/-- C++ `PodParser::parse_command` (pod.cpp line 206).  The command
paragraph (leading `=`, lines joined with spaces) is split into
whitespace-separated words; `arguments[0]` on an empty vector — the case of
a bare `=` paragraph — is out-of-range (undefined behaviour).  Note two
faithful quirks of the source: the `for` handler compares against the
string `"=for"` although the leading `=` was already stripped from `cmd`,
and the `=over` indent argument goes through `std::stof`, which throws on
non-numeric input. -/
def parse_command (command : List Char) (st : PState) : Except Err PState :=
  match splitWS (command.drop 1) with
  | [] => Except.error Err.vectorIndexOutOfRange
  | cmd :: args =>
      if cmd = "head1".data then parse_head 1 command cmd st
      else if cmd = "head2".data then parse_head 2 command cmd st
      else if cmd = "head3".data then parse_head 3 command cmd st
      else if cmd = "head4".data then parse_head 4 command cmd st
      else if cmd = "pod".data then Except.ok st
      else if cmd = "cut".data then Except.ok { st with mode := PMode.cut }
      else if cmd = "over".data then
        match args with
        | [] => Except.ok { st with
            tokens := st.tokens ++ [PodNode.over Option.none OverListType.unordered] }
        | a :: _ =>
            if stofAccepts a then
              Except.ok { st with
                tokens := st.tokens ++ [PodNode.over (some a) OverListType.unordered] }
            else Except.error Err.stofInvalidArgument
      else if cmd = "item".data then parse_item args st
      else if cmd = "back".data then
        match findPrecItemRev st.tokens.reverse 0 with
        | some lt =>
            let tokens1 := st.tokens ++ [PodNode.itemEnd lt]
            let tokens2 := (setListTypeRev lt tokens1.reverse 0).reverse
            Except.ok { st with tokens := tokens2 ++ [PodNode.back lt] }
        | Option.none =>
            Except.ok { st with
              tokens := st.tokens ++ [PodNode.back OverListType.unordered],
              warnings := st.warnings ++ [Warning.emptyOverBlock st.lino] }
      else if cmd = "begin".data then
        match args with
        | [] => Except.error Err.vectorIndexOutOfRange
        | a :: _ =>
            Except.ok { st with data_end_tag := "=end ".data ++ a,
                                data_args := args, mode := PMode.data }
      else if cmd = "=for".data then
        match args with
        | [] => Except.ok { st with
            warnings := st.warnings ++ [Warning.forMissingArgument st.lino] }
        | formatname :: rest =>
            let content := join_vectorstr rest [' ']
            if formatname.headD '\x00' = ':' then
              match parse_inline content
                  { st with tokens := st.tokens ++ [PodNode.paraStart] } with
              | Except.error e => Except.error e
              | Except.ok st' =>
                  Except.ok { st' with tokens := st'.tokens ++ [PodNode.paraEnd] }
            else
              Except.ok { st with
                tokens := st.tokens ++ [PodNode.data content [formatname]] }
      else if cmd = "encoding".data then
        Except.ok { st with warnings := st.warnings ++ [Warning.encodingIgnored st.lino] }
      else
        Except.ok { st with warnings := st.warnings ++ [Warning.unknownCommand st.lino cmd] }

/-- The leading-whitespace strip of `parse_verbatim` (pod.cpp lines 360-367):
every line of the paragraph loses `lead` characters via
`line.substr(lead)`, which throws `std::out_of_range` on a line shorter
than `lead`; the lines are rejoined with `\n`. -/
def stripVerbatimLines (lead : Nat) : List (List Char) → Except Err (List Char)
  | [] => Except.ok []
  | l :: rest =>
      match substrFromE l lead with
      | Except.error e => Except.error e
      | Except.ok l' =>
          match stripVerbatimLines lead rest with
          | Except.error e => Except.error e
          | Except.ok r => Except.ok (l' ++ '\n' :: r)

/-- The verbatim-merge step of `parse_verbatim` (pod.cpp lines 371-379): an
immediately preceding verbatim node is extended with `"\n"` plus the new
text; otherwise a fresh verbatim node is pushed. -/
def appendVerbatim (tokens : List PodNode) (v : List Char) : List PodNode :=
  match tokens.getLast? with
  | some (PodNode.verbatim t) =>
      tokens.dropLast ++ [PodNode.verbatim (t ++ '\n' :: v)]
  | _ => tokens ++ [PodNode.verbatim v]

/-- C++ `PodParser::parse_verbatim` (pod.cpp line 357). -/
def parse_verbatim (verbatim : List Char) (st : PState) : Except Err PState :=
  let stripped :=
    if 0 < st.verbatim_lead_space then
      stripVerbatimLines st.verbatim_lead_space (getlines verbatim)
    else Except.ok verbatim
  match stripped with
  | Except.error e => Except.error e
  | Except.ok v => Except.ok { st with tokens := appendVerbatim st.tokens v }

/-- C++ `PodParser::parse_data` (pod.cpp line 382). -/
def parse_data (dataStr : List Char) (st : PState) : PState :=
  { st with tokens := st.tokens ++ [PodNode.data dataStr st.data_args] }

/-- C++ `PodParser::parse_line` (pod.cpp line 118).  Note a faithful quirk:
after dispatching a command paragraph the mode is set back to
`PMode.none` unconditionally (pod.cpp line 125), clobbering the `cut` or
`data` mode that `parse_command` may just have set. -/
def parse_line (line : List Char) (st : PState) : Except Err PState :=
  match st.mode with
  | PMode.command =>
      if line = [] then
        match parse_command st.current_buffer st with
        | Except.error e => Except.error e
        | Except.ok st' =>
            Except.ok { st' with mode := PMode.none, current_buffer := [] }
      else Except.ok { st with current_buffer := st.current_buffer ++ line ++ [' '] }
  | PMode.ordinary =>
      if line = [] then
        match parse_ordinary st.current_buffer st with
        | Except.error e => Except.error e
        | Except.ok st' =>
            Except.ok { st' with mode := PMode.none, current_buffer := [] }
      else Except.ok { st with current_buffer := st.current_buffer ++ line ++ [' '] }
  | PMode.verbatim =>
      if line = [] then
        match parse_verbatim st.current_buffer st with
        | Except.error e => Except.error e
        | Except.ok st' =>
            Except.ok { st' with mode := PMode.none, current_buffer := [] }
      else Except.ok { st with current_buffer := st.current_buffer ++ line ++ ['\n'] }
  | PMode.data =>
      if line = st.data_end_tag then
        Except.ok { parse_data st.current_buffer st with
          mode := PMode.none, current_buffer := [], data_end_tag := [],
          data_args := [] }
      else Except.ok { st with current_buffer := st.current_buffer ++ line ++ ['\n'] }
  | PMode.cut =>
      if line = "=pod".data then Except.ok { st with mode := PMode.none }
      else Except.ok st
  | PMode.none =>
      let c := line.headD '\x00'
      if c = '\x00' then Except.ok st
      else if c = '=' then
        Except.ok { st with current_buffer := line ++ [' '], mode := PMode.command }
      else if c = ' ' ∨ c = '\t' then
        Except.ok { st with verbatim_lead_space := count_leading_whitespace line,
                            current_buffer := line ++ ['\n'], mode := PMode.verbatim }
      else Except.ok { st with mode := PMode.ordinary, current_buffer := line ++ [' '] }

/-- The `std::getline` loop of `Parse` (pod.cpp lines 108-111): `m_lino` is
incremented before each line is handled. -/
def ParseLines : List (List Char) → PState → Except Err PState
  | [], st => Except.ok st
  | l :: ls, st =>
      match parse_line l { st with lino := st.lino + 1 } with
      | Except.error e => Except.error e
      | Except.ok st' => ParseLines ls st'

/-- C++ `PodParser::Parse` (pod.cpp line 92) run on a freshly constructed
parser: empty input returns immediately; otherwise every line is fed to
`parse_line`, followed by one synthetic empty line to flush the last
paragraph. -/
def Parse (src : List Char) : Except Err PState :=
  if src = [] then Except.ok initState
  else
    match ParseLines (getlines src) initState with
    | Except.error e => Except.error e
    | Except.ok st => parse_line [] st

/-- First index of `#`, modelling `std::string::find("#")` (pod.cpp line
993). -/
def find_hash : List Char → Option Nat
  | [] => Option.none
  | c :: rest =>
      if c = '#' then some 0 else (find_hash rest).map Nat.succ

/-- First index of the substring `::`, modelling `std::string::find("::")`
(pod.cpp line 994). -/
def find_colon2 : List Char → Option Nat
  | [] => Option.none
  | c :: rest =>
      if c = ':' ∧ rest.headD '\x00' = ':' then some 0
      else (find_colon2 rest).map Nat.succ

/-- The method-reference split from `PodNodeInlineMarkupStart::ToHTML`
(pod.cpp lines 993-997): `pos` is the first `#` if any, otherwise the first
`::` (the `||` short-circuits, so `#` always wins when present);
`is_cmethod` is whether the character at `pos` is `:`; the class/module
name is everything before `pos` and the method name everything after the
delimiter.  `Option.none` means neither delimiter occurs (variant 1 in the
source). -/
def linkSplitMethodRef (link_target : List Char) :
    Option (Bool × List Char × List Char) :=
  match (match find_hash link_target with
         | some p => some p
         | Option.none => find_colon2 link_target) with
  | Option.none => Option.none
  | some pos =>
      let is_cmethod := link_target.get? pos = some ':'
      some (decide is_cmethod, link_target.take pos,
            link_target.drop (if link_target.get? pos = some ':' then pos + 2 else pos + 1))

/-! Projections on parse results, used to state the claim theorems. -/

/-- The token stream of a successful parse (empty on an aborted parse). -/
def tokensOfE : Except Err PState → List PodNode
  | Except.ok st => st.tokens
  | Except.error _ => []

/-- The warnings of a successful parse. -/
def warningsOfE : Except Err PState → List Warning
  | Except.ok st => st.warnings
  | Except.error _ => []

/-- The index-keyword table of a successful parse. -/
def idxOfE : Except Err PState → List (List Char × List Char)
  | Except.ok st => st.idx_keywords
  | Except.error _ => []

/-- The escape buffer of a successful parse. -/
def ecodeOfE : Except Err PState → List Char
  | Except.ok st => st.ecode
  | Except.error _ => []

/-- Whether a parse ran to completion. -/
def isOkE : Except Err PState → Bool
  | Except.ok _ => true
  | Except.error _ => false

/-- Whether a parse aborted specifically with the `std::runtime_error` of
`find_preceeding_inline_markup_start`. -/
def isLinkScanError : Except Err PState → Bool
  | Except.error Err.noPrecedingInlineMarkupStart => true
  | _ => false

/-- Bool test: an `itemStart` node. -/
def isItemStartNode : PodNode → Bool
  | PodNode.itemStart _ _ => true
  | _ => false

/-- Bool test: an `itemStart` node carrying the Description list type. -/
def isDescriptionItemStart : PodNode → Bool
  | PodNode.itemStart _ lt => lt = OverListType.description
  | _ => false

/-- Modelled from the spec wording of claim C6: the text the claim predicts
for the single text node of a plain one-paragraph document, namely the
paragraph text `T` with (internal) newlines replaced by spaces and then
HTML-escaped.  Used only to compare the claim against the code's output. -/
def claimedPlainParaText (T : List Char) : List Char :=
  htmlEscapeString (T.map (fun c => if c = '\n' then ' ' else c))

/-- Joining a list of newline-free lines back into a document with `\n`
separators (no trailing newline). -/
def joinLines : List (List Char) → List Char
  | [] => []
  | [l] => l
  | l :: ls => l ++ '\n' :: joinLines ls

/-- The logical paragraph text the block machine accumulates for a
multi-line ordinary paragraph: every line followed by one space. -/
def joinWithSpace (ls : List (List Char)) : List Char :=
  (ls.map (fun l => l ++ [' '])).flatten

/-! Concrete input documents used by the claim theorems. -/

/-- An `=over` block with a non-numeric indent argument. -/
def docOverBadIndent : List Char := "=over x\n\n".data

/-- A paragraph with a `Z<secret>` zap region between two text runs. -/
def docZapSecret : List Char := "aZ<secret>b\n".data

/-- The list document of claim C3. -/
def docOverItems : List Char :=
  "=over\n\n=item a\n\nfoo\n\n=item b\n\nbar\n\n=back\n\n".data

/-- A `=for` command paragraph with a format name and content. -/
def docForHtml : List Char := "=for html x\n\n".data

/-- A paragraph with an unterminated `E<`, followed by a plain paragraph. -/
def docEscapeLeak : List Char := "E<foo\n\nbar\n".data

/-- A paragraph whose `X<foo bar>` sits inside an `E<...>` escape. -/
def docIndexInEscape : List Char := "E<X<foo bar>>\n".data

/-- A paragraph whose nested formatting leaves an all-spaces text node
before a markup close. -/
def docAllSpaceStrip : List Char := "B<I<x> >\n".data

/-! Definitions for the C9 invariant: balanced markup segments and the
decomposition of the token stream along the open-frame stack. -/

/-- Markup start and end nodes, the node kinds the backward scan of
`find_preceeding_inline_markup_start` counts. -/
def IsMarkupNode : PodNode → Bool
  | PodNode.inlineMarkupStart _ _ => true
  | PodNode.inlineMarkupEnd _ _ => true
  | _ => false

/-- Balanced token segments: built from nothing by appending non-markup
nodes and by wrapping a balanced segment in one markup start / markup end
pair (of arbitrary kinds and arguments) after a balanced prefix.  Each
complete inline group the engine emits between a frame's start node and the
current position has this shape. -/
inductive Bal : List PodNode → Prop
  | nil : Bal []
  | nonmarkup (b : List PodNode) (x : PodNode) :
      Bal b → IsMarkupNode x = false → Bal (b ++ [x])
  | group (b c : List PodNode) (t1 : Mtype) (a1 : List (List Char))
      (t2 : Mtype) (a2 : List (List Char)) :
      Bal b → Bal c →
      Bal (b ++ PodNode.inlineMarkupStart t1 a1 ::
           (c ++ [PodNode.inlineMarkupEnd t2 a2]))

/-- The inline engine's loop invariant: for each open frame, from the top of
the stack downward, the token stream ends in that frame's markup-start node
(its argument list may have been mutated) followed by a balanced segment,
and the rest of the stream satisfies the invariant for the remaining
frames. -/
def StackInv : List PodNode → List PodFrame → Prop
  | _, [] => True
  | toks, f :: fs =>
      ∃ pre args b,
        toks = pre ++ PodNode.inlineMarkupStart f.type args :: b ∧
        Bal b ∧ StackInv pre fs

/-- The cumulative effect of the plain-character branch over a run of
characters: each one is HTML-escaped and appended via `pushText`. -/
def pushTextMany (tokens : List PodNode) (cs : List Char) : List PodNode :=
  cs.foldl (fun tk c => pushText tk (htmlEscapeChar c false)) tokens

/-- None of the buffer-routing or escape-altering inline kinds is active and
no link bar is pending: the situation of a plain-text paragraph. -/
def ModesInactive (tokens : List PodNode) : Prop :=
  is_inline_mode_active tokens Mtype.escape = false ∧
  is_inline_mode_active tokens Mtype.index = false ∧
  is_inline_mode_active tokens Mtype.link = false ∧
  is_inline_mode_active tokens Mtype.nbsp = false

/-- Bool test: a markup start or end node of the Zap kind (the only nodes
that move `zapGo`'s counter). -/
def isZapMarkupNode : PodNode → Bool
  | PodNode.inlineMarkupStart t _ => t = Mtype.zap
  | PodNode.inlineMarkupEnd t _ => t = Mtype.zap
  | _ => false

/-- A parser state whose token stream holds one unmatched Escape markup
start, as left behind by an unterminated `E<`; used to witness the leak
theorems. -/
def escActiveState : PState :=
  { initState with tokens := [PodNode.inlineMarkupStart Mtype.escape []] }

/-- A fresh parser state that has read `n` lines and is buffering `buf` in
Ordinary mode. -/
def stOrd (n : Nat) (buf : List Char) : PState :=
  { initState with lino := n, mode := PMode.ordinary, current_buffer := buf }

/-- Like `stOrd`, with tokens already emitted. -/
def stOrdTok (n : Nat) (buf : List Char) (tk : List PodNode) : PState :=
  { initState with lino := n, mode := PMode.ordinary, current_buffer := buf,
                   tokens := tk }

/-- A fresh parser state after `n` lines, back in None mode with an empty
buffer, holding the finished token stream. -/
def stDone (n : Nat) (tk : List PodNode) : PState :=
  { initState with lino := n, tokens := tk }

/-! ## Theorems -/

/-- C1: the claim states that `Parse` always runs to completion and that a
non-numeric indent argument to `=over` yields at most a warning.  In fact
`parse_command` feeds the argument to `std::stof` (pod.cpp line 250), which
throws `std::invalid_argument` on `x`, aborting the whole parse.
(Likewise a verbatim continuation line shorter than the recorded strip
width aborts via `std::string::substr`'s `std::out_of_range`,
pod.cpp line 365.) -/
theorem C1_parse_aborts_on_nonnumeric_over_indent :
    Parse docOverBadIndent = Except.error Err.stofInvalidArgument := by
  rfl

/-- C2 counterexample: the claim states the Zap markup-start and markup-end
nodes are entirely absent from the finished node sequence; in fact both
survive the zap pass (only the nodes strictly between them are erased, see
`zapGo`: the outermost start is kept because the counter is still 0, the
outermost end because the counter has returned to 0). -/
theorem C2_zap_delimiters_survive :
    PodNode.inlineMarkupStart Mtype.zap [] ∈ tokensOfE (Parse docZapSecret) ∧
    PodNode.inlineMarkupEnd Mtype.zap [] ∈ tokensOfE (Parse docZapSecret) := by
  decide

/-- C2 amended: for the paragraph `aZ<secret>b`, the zap pass erases the
word "secret" while the sibling text nodes before and after survive
unmodified (the trailing space on `b ` is the block machine's line join,
added before the zap pass runs), but the Zap markup-start and markup-end
delimiter nodes themselves remain in the node sequence (they render as
empty strings). -/
theorem C2_zap_erases_content_keeps_delimiters :
    tokensOfE (Parse docZapSecret) =
      [PodNode.paraStart, PodNode.inlineText ['a'],
       PodNode.inlineMarkupStart Mtype.zap [],
       PodNode.inlineMarkupEnd Mtype.zap [],
       PodNode.inlineText "b ".data, PodNode.paraEnd] := by
  rfl

/-- C3 counterexample: the claim states both `ItemStart`/`ItemEnd` pairs
carry the Description list type; in fact the token stream of that document
contains two `ItemStart` nodes and none of them carries Description
(`parse_command` normalises `=item a` to `=item * a`, pod.cpp lines
262-267, so both items are Unordered with label `*`). -/
theorem C3_no_description_items :
    ((tokensOfE (Parse docOverItems)).countP isItemStartNode = 2) ∧
    ((tokensOfE (Parse docOverItems)).countP isDescriptionItemStart = 0) := by
  decide

/-- C3 amended: for the input `=over\n\n=item a\n\nfoo\n\n=item b\n\nbar\n\n=back\n\n`
the token sequence contains exactly one `Over`, two `ItemStart`/`ItemEnd`
pairs, and the `Over`/`Back` pair — but all of them carry the Unordered
list type: a label that is not `*`, a digit or `[` makes the command a
shorthand for `=item *`, the label word becoming paragraph text. -/
theorem C3_over_items_all_unordered :
    tokensOfE (Parse docOverItems) =
      [PodNode.over Option.none OverListType.unordered,
       PodNode.itemStart ['*'] OverListType.unordered,
       PodNode.paraStart, PodNode.inlineText ['a'], PodNode.paraEnd,
       PodNode.paraStart, PodNode.inlineText "foo ".data, PodNode.paraEnd,
       PodNode.itemEnd OverListType.unordered,
       PodNode.itemStart ['*'] OverListType.unordered,
       PodNode.paraStart, PodNode.inlineText ['b'], PodNode.paraEnd,
       PodNode.paraStart, PodNode.inlineText "bar ".data, PodNode.paraEnd,
       PodNode.itemEnd OverListType.unordered,
       PodNode.back OverListType.unordered] := by
  rfl

/-- C4: the claim states a completed `for` command paragraph is dispatched
to the `=for` handler (inline paragraph or one `Data` node) and never
dropped with an unknown-command warning.  In fact the dispatcher strips the
leading `=` before matching but compares the command word against the
literal `"=for"` (pod.cpp line 328), so the handler is unreachable for
`=for` paragraphs: no node is emitted and the unknown-command warning fires
(on source line 2, where the empty line completes the paragraph). -/
theorem C4_for_command_dropped_as_unknown :
    tokensOfE (Parse docForHtml) = [] ∧
    warningsOfE (Parse docForHtml) = [Warning.unknownCommand 2 "for".data] := by
  exact ⟨rfl, rfl⟩

/-- C5 counterexample: in `A::B#c` the `::` delimiter occurs first (index 1,
before `#` at index 4), so the claim demands the split to honor `::` with
`is_cmethod = true`; in fact `ToHTML` tries `find("#")` first and the `||`
short-circuits (pod.cpp line 993), so the split happens at the `#`:
`is_cmethod = false`, class/module name `A::B`, method name `c`. -/
theorem C5_hash_beats_earlier_coloncolon :
    find_colon2 "A::B#c".data = some 1 ∧
    find_hash "A::B#c".data = some 4 ∧
    linkSplitMethodRef "A::B#c".data =
      some (false, "A::B".data, ['c']) := by
  exact ⟨rfl, rfl, rfl⟩

/-- C6 counterexample: for the one-paragraph document `a` the claim predicts
the node sequence `ParaStart, InlineText("a"), ParaEnd` (no newlines to
replace, nothing to escape); in fact the block machine appends a space for
the final line's newline as well (pod.cpp line 190), so the text node is
`"a "`. -/
theorem C6_trailing_space_added :
    tokensOfE (Parse ['a']) =
      [PodNode.paraStart, PodNode.inlineText "a ".data, PodNode.paraEnd] ∧
    claimedPlainParaText ['a'] = ['a'] ∧
    "a ".data ≠ ['a'] := by
  exact ⟨rfl, rfl, by decide⟩

/-- C7 counterexample: the claim states that an unterminated formatting code
in one paragraph cannot reroute the plain characters of a later paragraph
into the escape buffer.  In fact `is_inline_mode_active` scans the whole
token stream, so after the unterminated `E<foo` paragraph the Escape kind
is still active in the next paragraph: `bar` produces no visible text node
at all and ends up in the escape buffer. -/
theorem C7_unterminated_escape_leaks :
    tokensOfE (Parse docEscapeLeak) =
      [PodNode.paraStart, PodNode.inlineMarkupStart Mtype.escape [],
       PodNode.paraEnd, PodNode.paraStart, PodNode.paraEnd] ∧
    ecodeOfE (Parse docEscapeLeak) = "foo bar ".data := by
  exact ⟨rfl, rfl⟩

/-- C8 counterexample: the claim quantifies over every paragraph containing
`X<foo bar>`; in the paragraph `E<X<foo bar>>` the keyword characters are
routed into the escape buffer (the Escape check precedes the Index check,
pod.cpp lines 536-541), so the Index end node carries the empty string, the
table records `"" -> ""`, and no `"foo bar" -> "foo_bar"` mapping exists. -/
theorem C8_index_inside_escape_fails :
    tokensOfE (Parse docIndexInEscape) =
      [PodNode.paraStart, PodNode.inlineMarkupStart Mtype.escape [],
       PodNode.inlineMarkupStart Mtype.index [],
       PodNode.inlineMarkupEnd Mtype.index [[]],
       PodNode.inlineMarkupEnd Mtype.escape ["foo bar".data],
       PodNode.inlineText [' '], PodNode.paraEnd] ∧
    idxOfE (Parse docIndexInEscape) = [([], [])] ∧
    mapLookup (idxOfE (Parse docIndexInEscape)) "foo bar".data = Option.none := by
  exact ⟨rfl, rfl, rfl⟩

/-- C10: the claim states the trailing-whitespace strip terminates and stays
in bounds even when the preceding text node is all spaces, leaving it
empty.  In fact, once every character has been stripped, the loop condition
evaluates `m_text[m_text.length()-1]` on the empty string: `length()-1`
wraps to `SIZE_MAX`, an out-of-range access.  The input `B<I<x> >` reaches
exactly this state (the text node between `I<x>` and the final `>` is one
space), so the parse aborts instead of finishing. -/
theorem C10_strip_reads_out_of_bounds :
    Parse docAllSpaceStrip = Except.error Err.stringIndexOutOfRange := by
  rfl

/-- `find_hash` really returns an index of a `#`. -/
theorem find_hash_get {t : List Char} {p : Nat} (h : find_hash t = some p) :
    t.get? p = some '#' := by
  induction t generalizing p with
  | nil => simp [find_hash] at h
  | cons c rest ih =>
      by_cases hc : c = '#'
      · simp [find_hash, hc] at h
        subst h
        simp [hc]
      · simp [find_hash, hc] at h
        obtain ⟨q, hq, rfl⟩ := h
        simpa using ih hq

/-- C5 amended: for every link target containing both delimiters (indeed for
every target containing `#` at all), the split happens at the first `#` —
`find("#")` is attempted first and the `||` short-circuits — with
`is_cmethod = false`; the first-occurring delimiter is not honored when it
is a `::` preceding a `#`. -/
theorem C5_split_at_first_hash (t : List Char) (p : Nat)
    (hh : find_hash t = some p) (_hcc : (find_colon2 t).isSome) :
    linkSplitMethodRef t = some (false, t.take p, t.drop (p + 1)) := by
  have hget := find_hash_get hh
  have hne : ¬ t.get? p = some ':' := by
    rw [hget]
    intro hcon
    exact absurd (Option.some.inj hcon) (by decide)
  unfold linkSplitMethodRef
  rw [hh]
  rw [List.get?_eq_getElem?] at hne
  simp [hne]

/-- Witness for C5: the general split theorem applied to `A::B#c`. -/
theorem C5_split_at_first_hash_witness :
    find_hash "A::B#c".data = some 4 ∧
    (find_colon2 "A::B#c".data).isSome = true ∧
    linkSplitMethodRef "A::B#c".data =
      some (false, "A::B#c".data.take 4, "A::B#c".data.drop 5) :=
  ⟨rfl, rfl, C5_split_at_first_hash _ 4 rfl rfl⟩

/-! Arithmetic of `inlineMarkupLevel` and invariance of mode activity under
text-node manipulation. -/

theorem inlineMarkupLevel_append (l1 l2 : List PodNode) (t : Mtype) :
    inlineMarkupLevel (l1 ++ l2) t =
      inlineMarkupLevel l1 t + inlineMarkupLevel l2 t := by
  induction l1 with
  | nil => simp [inlineMarkupLevel]
  | cons n rest ih =>
      simp only [List.cons_append, inlineMarkupLevel, List.append_eq]
      rw [ih]
      ring

theorem inlineMarkupLevel_text (s : List Char) (t : Mtype) :
    inlineMarkupLevel [PodNode.inlineText s] t = 0 := by
  simp [inlineMarkupLevel]

theorem inlineMarkupLevel_pushText (tk : List PodNode) (s : List Char)
    (t : Mtype) :
    inlineMarkupLevel (pushText tk s) t = inlineMarkupLevel tk t := by
  unfold pushText
  cases h : tk.getLast? with
  | none => simp [inlineMarkupLevel_append, inlineMarkupLevel_text]
  | some n =>
      cases n with
      | inlineText u =>
          conv_rhs => rw [← List.dropLast_append_getLast? _ h]
          simp [inlineMarkupLevel_append, inlineMarkupLevel_text]
      | headStart a b => simp [inlineMarkupLevel_append, inlineMarkupLevel_text]
      | headEnd a => simp [inlineMarkupLevel_append, inlineMarkupLevel_text]
      | over a b => simp [inlineMarkupLevel_append, inlineMarkupLevel_text]
      | itemStart a b => simp [inlineMarkupLevel_append, inlineMarkupLevel_text]
      | itemEnd a => simp [inlineMarkupLevel_append, inlineMarkupLevel_text]
      | back a => simp [inlineMarkupLevel_append, inlineMarkupLevel_text]
      | paraStart => simp [inlineMarkupLevel_append, inlineMarkupLevel_text]
      | paraEnd => simp [inlineMarkupLevel_append, inlineMarkupLevel_text]
      | inlineMarkupStart a b => simp [inlineMarkupLevel_append, inlineMarkupLevel_text]
      | inlineMarkupEnd a b => simp [inlineMarkupLevel_append, inlineMarkupLevel_text]
      | data a b => simp [inlineMarkupLevel_append, inlineMarkupLevel_text]
      | verbatim a => simp [inlineMarkupLevel_append, inlineMarkupLevel_text]

theorem is_inline_mode_active_pushText (tk : List PodNode) (s : List Char)
    (t : Mtype) :
    is_inline_mode_active (pushText tk s) t = is_inline_mode_active tk t := by
  unfold is_inline_mode_active
  rw [inlineMarkupLevel_pushText]

theorem ModesInactive_pushText {tk : List PodNode} (s : List Char)
    (h : ModesInactive tk) : ModesInactive (pushText tk s) := by
  obtain ⟨h1, h2, h3, h4⟩ := h
  exact ⟨by rw [is_inline_mode_active_pushText]; exact h1,
         by rw [is_inline_mode_active_pushText]; exact h2,
         by rw [is_inline_mode_active_pushText]; exact h3,
         by rw [is_inline_mode_active_pushText]; exact h4⟩

/-! Accumulation lemmas for `pushText` / `pushTextMany`. -/

theorem pushText_text_last (pre : List PodNode) (u s : List Char) :
    pushText (pre ++ [PodNode.inlineText u]) s =
      pre ++ [PodNode.inlineText (u ++ s)] := by
  unfold pushText
  rw [List.getLast?_concat, List.dropLast_concat]

theorem pushText_nontext_last (tk : List PodNode) (s : List Char)
    (h : ∀ u, tk.getLast? ≠ some (PodNode.inlineText u)) :
    pushText tk s = tk ++ [PodNode.inlineText s] := by
  unfold pushText
  cases hl : tk.getLast? with
  | none => rfl
  | some n =>
      cases n with
      | inlineText u => exact absurd hl (h u)
      | headStart a b => rfl
      | headEnd a => rfl
      | over a b => rfl
      | itemStart a b => rfl
      | itemEnd a => rfl
      | back a => rfl
      | paraStart => rfl
      | paraEnd => rfl
      | inlineMarkupStart a b => rfl
      | inlineMarkupEnd a b => rfl
      | data a b => rfl
      | verbatim a => rfl

theorem htmlEscapeString_cons (c : Char) (cs : List Char) :
    htmlEscapeString (c :: cs) = htmlEscapeChar c false ++ htmlEscapeString cs := by
  simp [htmlEscapeString]

theorem pushTextMany_from_text (cs : List Char) :
    ∀ (pre : List PodNode) (u : List Char),
    pushTextMany (pre ++ [PodNode.inlineText u]) cs =
      pre ++ [PodNode.inlineText (u ++ htmlEscapeString cs)] := by
  induction cs with
  | nil =>
      intro pre u
      simp [pushTextMany, htmlEscapeString]
  | cons c cs' ih =>
      intro pre u
      show pushTextMany (pushText (pre ++ [PodNode.inlineText u])
        (htmlEscapeChar c false)) cs' = _
      rw [pushText_text_last, ih, htmlEscapeString_cons, List.append_assoc]

theorem pushTextMany_fresh (tk : List PodNode) (cs : List Char)
    (h : ∀ u, tk.getLast? ≠ some (PodNode.inlineText u)) (hne : cs ≠ []) :
    pushTextMany tk cs = tk ++ [PodNode.inlineText (htmlEscapeString cs)] := by
  cases cs with
  | nil => exact absurd rfl hne
  | cons c cs' =>
      show pushTextMany (pushText tk (htmlEscapeChar c false)) cs' = _
      rw [pushText_nontext_last tk _ h, pushTextMany_from_text,
          htmlEscapeString_cons]

theorem pushTextMany_cons (tk : List PodNode) (c : Char) (cs : List Char) :
    pushTextMany tk (c :: cs) =
      pushTextMany (pushText tk (htmlEscapeChar c false)) cs := rfl

theorem ModesInactive_pushTextMany {tk : List PodNode} (cs : List Char)
    (h : ModesInactive tk) : ModesInactive (pushTextMany tk cs) := by
  induction cs generalizing tk with
  | nil => exact h
  | cons c cs' ih =>
      rw [pushTextMany_cons]
      exact ih (ModesInactive_pushText _ h)

/-! The three run lemmas for the inline loop: a run of plain characters with
no active mode becomes escaped text; with Escape (resp. Index) active it is
routed into the escape (resp. keyword) buffer. -/

theorem head?_append_ne {P rest : List Char} {c : Char}
    (hP : c ∉ P) (hrest : rest.head? ≠ some c) :
    (P ++ rest).head? ≠ some c := by
  cases P with
  | nil => simpa using hrest
  | cons d P' =>
      simp only [List.cons_append, List.head?_cons]
      intro hcon
      exact hP (by simp [Option.some.inj hcon])

/-- One-step unfolding of `inlineGo` with an empty frame stack. -/
theorem inlineGo_cons_nil (fuel : Nat) (c : Char) (cs : List Char) (st : PState) :
    inlineGo (fuel + 1) (c :: cs) [] st =
      if cs.head? = some '<' then
        inlineGo fuel (inlineOpen c cs st).1 [(inlineOpen c cs st).2.1]
          (inlineOpen c cs st).2.2
      else inlineGo fuel cs [] (plainStep c st) := rfl

/-- One-step unfolding of `inlineGo` with a nonempty frame stack. -/
theorem inlineGo_cons_stack (fuel : Nat) (c : Char) (cs : List Char)
    (mel : PodFrame) (srest : List PodFrame) (st : PState) :
    inlineGo (fuel + 1) (c :: cs) (mel :: srest) st =
      if cs.head? = some '<' then
        inlineGo fuel (inlineOpen c cs st).1
          ((inlineOpen c cs st).2.1 :: mel :: srest) (inlineOpen c cs st).2.2
      else if c = '>' then
        if (c :: cs).take mel.angle_count = List.replicate mel.angle_count '>' then
          match inlineClose mel cs st with
          | Except.error e => Except.error e
          | Except.ok r => inlineGo fuel r.1 srest r.2
        else inlineGo fuel cs (mel :: srest) (strayStep st)
      else inlineGo fuel cs (mel :: srest) (plainStep c st) := rfl

theorem inlineGo_plain_run (P : List Char) :
    ∀ (rest : List Char) (fuel : Nat) (st : PState),
    '<' ∉ P → rest.head? ≠ some '<' →
    (P ++ rest).length ≤ fuel →
    ModesInactive st.tokens → st.link_bar_found = false →
    inlineGo fuel (P ++ rest) [] st =
      inlineGo (fuel - P.length) rest []
        { st with tokens := pushTextMany st.tokens P } := by
  induction P with
  | nil =>
      intro rest fuel st _ _ _ _ _
      simp [pushTextMany]
  | cons c P' ih =>
      intro rest fuel st hP hrest hlen hmodes hbar
      have hcP' : '<' ∉ P' := fun h => hP (List.mem_cons_of_mem _ h)
      have hcne : c ≠ '<' := fun h => hP (h ▸ List.mem_cons_self c P')
      have hhead : (P' ++ rest).head? ≠ some '<' := head?_append_ne hcP' hrest
      cases fuel with
      | zero => simp at hlen
      | succ f =>
          obtain ⟨h1, h2, h3, h4⟩ := hmodes
          have hstep : plainStep c st =
              { st with tokens := pushText st.tokens (htmlEscapeChar c false) } := by
            unfold plainStep
            rw [h1, h2, h3]
            simp [hbar, h4]
          have hthis : inlineGo (f + 1) ((c :: P') ++ rest) [] st =
              inlineGo f (P' ++ rest) [] (plainStep c st) := by
            show inlineGo (f + 1) (c :: (P' ++ rest)) [] st = _
            rw [inlineGo_cons_nil, if_neg hhead]
          rw [hthis, hstep]
          have hlen' : (P' ++ rest).length ≤ f := by
            simp only [List.cons_append, List.length_cons] at hlen
            omega
          rw [ih rest f { st with tokens := pushText st.tokens (htmlEscapeChar c false) }
              hcP' hrest hlen' (ModesInactive_pushText _ ⟨h1, h2, h3, h4⟩) hbar]
          simp [pushTextMany_cons, Nat.succ_sub_succ]

theorem inlineGo_escape_run (P : List Char) :
    ∀ (rest : List Char) (fuel : Nat) (stack : List PodFrame) (st : PState),
    '<' ∉ P → '>' ∉ P → rest.head? ≠ some '<' →
    (P ++ rest).length ≤ fuel →
    is_inline_mode_active st.tokens Mtype.escape = true →
    inlineGo fuel (P ++ rest) stack st =
      inlineGo (fuel - P.length) rest stack { st with ecode := st.ecode ++ P } := by
  induction P with
  | nil =>
      intro rest fuel stack st _ _ _ _ _
      simp
  | cons c P' ih =>
      intro rest fuel stack st hP hgt hrest hlen hesc
      have hcP' : '<' ∉ P' := fun h => hP (List.mem_cons_of_mem _ h)
      have hgtP' : '>' ∉ P' := fun h => hgt (List.mem_cons_of_mem _ h)
      have hcgt : c ≠ '>' := fun h => hgt (h ▸ List.mem_cons_self c P')
      have hhead : (P' ++ rest).head? ≠ some '<' := head?_append_ne hcP' hrest
      cases fuel with
      | zero => simp at hlen
      | succ f =>
          have hstep : plainStep c st = { st with ecode := st.ecode ++ [c] } := by
            unfold plainStep
            rw [hesc]
            simp
          have hlen' : (P' ++ rest).length ≤ f := by
            simp only [List.cons_append, List.length_cons] at hlen
            omega
          have hthis : inlineGo (f + 1) ((c :: P') ++ rest) stack st =
              inlineGo f (P' ++ rest) stack (plainStep c st) := by
            show inlineGo (f + 1) (c :: (P' ++ rest)) stack st = _
            cases stack with
            | nil => rw [inlineGo_cons_nil, if_neg hhead]
            | cons mel srest =>
                rw [inlineGo_cons_stack, if_neg hhead, if_neg hcgt]
          rw [hthis, hstep]
          rw [ih rest f stack { st with ecode := st.ecode ++ [c] }
              hcP' hgtP' hrest hlen' hesc]
          simp [Nat.succ_sub_succ]

theorem inlineGo_index_run (P : List Char) :
    ∀ (rest : List Char) (fuel : Nat) (stack : List PodFrame) (st : PState),
    '<' ∉ P → '>' ∉ P → rest.head? ≠ some '<' →
    (P ++ rest).length ≤ fuel →
    is_inline_mode_active st.tokens Mtype.escape = false →
    is_inline_mode_active st.tokens Mtype.index = true →
    inlineGo fuel (P ++ rest) stack st =
      inlineGo (fuel - P.length) rest stack { st with idx_kw := st.idx_kw ++ P } := by
  induction P with
  | nil =>
      intro rest fuel stack st _ _ _ _ _ _
      simp
  | cons c P' ih =>
      intro rest fuel stack st hP hgt hrest hlen hesc hidx
      have hcP' : '<' ∉ P' := fun h => hP (List.mem_cons_of_mem _ h)
      have hgtP' : '>' ∉ P' := fun h => hgt (List.mem_cons_of_mem _ h)
      have hcgt : c ≠ '>' := fun h => hgt (h ▸ List.mem_cons_self c P')
      have hhead : (P' ++ rest).head? ≠ some '<' := head?_append_ne hcP' hrest
      cases fuel with
      | zero => simp at hlen
      | succ f =>
          have hstep : plainStep c st = { st with idx_kw := st.idx_kw ++ [c] } := by
            unfold plainStep
            rw [hesc, hidx]
            simp
          have hlen' : (P' ++ rest).length ≤ f := by
            simp only [List.cons_append, List.length_cons] at hlen
            omega
          have hthis : inlineGo (f + 1) ((c :: P') ++ rest) stack st =
              inlineGo f (P' ++ rest) stack (plainStep c st) := by
            show inlineGo (f + 1) (c :: (P' ++ rest)) stack st = _
            cases stack with
            | nil => rw [inlineGo_cons_nil, if_neg hhead]
            | cons mel srest =>
                rw [inlineGo_cons_stack, if_neg hhead, if_neg hcgt]
          rw [hthis, hstep]
          rw [ih rest f stack { st with idx_kw := st.idx_kw ++ [c] }
              hcP' hgtP' hrest hlen' hesc hidx]
          simp [Nat.succ_sub_succ]

/-- The zap pass leaves a stream containing no Zap markup nodes untouched. -/
theorem zapGo_id (l : List PodNode)
    (h : ∀ n ∈ l, isZapMarkupNode n = false) : zapGo l 0 = l := by
  induction l with
  | nil => rfl
  | cons n rest ih =>
      have hn : isZapMarkupNode n = false := h n (List.mem_cons_self n rest)
      have hrest : ∀ m ∈ rest, isZapMarkupNode m = false :=
        fun m hm => h m (List.mem_cons_of_mem _ hm)
      cases n with
      | inlineMarkupStart t args =>
          have ht : ¬ t = Mtype.zap := by
            simpa [isZapMarkupNode] using hn
          simp [zapGo, ht, ih hrest]
      | inlineMarkupEnd t args =>
          have ht : ¬ t = Mtype.zap := by
            simpa [isZapMarkupNode] using hn
          simp [zapGo, ht, ih hrest]
      | headStart a b => simp [zapGo, ih hrest]
      | headEnd a => simp [zapGo, ih hrest]
      | over a b => simp [zapGo, ih hrest]
      | itemStart a b => simp [zapGo, ih hrest]
      | itemEnd a => simp [zapGo, ih hrest]
      | back a => simp [zapGo, ih hrest]
      | paraStart => simp [zapGo, ih hrest]
      | paraEnd => simp [zapGo, ih hrest]
      | inlineText a => simp [zapGo, ih hrest]
      | data a b => simp [zapGo, ih hrest]
      | verbatim a => simp [zapGo, ih hrest]

/-- A nonempty newline-free string is one `getline` line. -/
theorem getlines_single (l : List Char) (h1 : '\n' ∉ l) (h2 : l ≠ []) :
    getlines l = [l] := by
  induction l with
  | nil => exact absurd rfl h2
  | cons c rest ih =>
      have hc : ¬ c = '\n' := fun h => h1 (h ▸ List.mem_cons_self c rest)
      have hrest : '\n' ∉ rest := fun h => h1 (List.mem_cons_of_mem _ h)
      rw [getlines, if_neg hc]
      cases rest with
      | nil => rfl
      | cons d rest' => rw [ih hrest (by simp)]

/-- Splitting off one newline-free line before a `\n`. -/
theorem getlines_cons (l rest : List Char) (h : '\n' ∉ l) :
    getlines (l ++ '\n' :: rest) = l :: getlines rest := by
  induction l with
  | nil => simp [getlines]
  | cons c l' ih =>
      have hc : ¬ c = '\n' := fun hh => h (hh ▸ List.mem_cons_self c l')
      have hl' : '\n' ∉ l' := fun hh => h (List.mem_cons_of_mem _ hh)
      rw [List.cons_append]
      show getlines (c :: (l' ++ '\n' :: rest)) = _
      rw [getlines]
      simp only [hc, if_false]
      rw [ih hl']

/-- `getlines` inverts `joinLines` on nonempty newline-free lines. -/
theorem getlines_joinLines (ls : List (List Char)) (h0 : ls ≠ [])
    (h : ∀ l ∈ ls, l ≠ [] ∧ '\n' ∉ l) : getlines (joinLines ls) = ls := by
  induction ls with
  | nil => exact absurd rfl h0
  | cons l ls' ih =>
      have hl := h l (List.mem_cons_self l ls')
      cases ls' with
      | nil =>
          show getlines (joinLines [l]) = [l]
          simpa [joinLines] using getlines_single l hl.2 hl.1
      | cons m ms =>
          have hjoin : joinLines (l :: m :: ms) = l ++ '\n' :: joinLines (m :: ms) := rfl
          rw [hjoin, getlines_cons _ _ hl.2]
          rw [ih (by simp) (fun x hx => h x (List.mem_cons_of_mem _ hx))]

theorem joinWithSpace_cons (l : List Char) (ls : List (List Char)) :
    joinWithSpace (l :: ls) = l ++ [' '] ++ joinWithSpace ls := by
  simp [joinWithSpace]

/-- A nonempty line fed to the block machine in Ordinary mode is appended
to the paragraph buffer with a trailing space. -/
theorem parse_line_ordinary_nonempty (l : List Char) (st : PState)
    (hmode : st.mode = PMode.ordinary) (hl : l ≠ []) :
    parse_line l st = Except.ok
      ({ st with current_buffer := st.current_buffer ++ l ++ [' '] }) := by
  obtain ⟨l0, m0, b0, v0, t0, c0, d0, e0, f0, g0, h0, i0, j0⟩ := st
  simp only at hmode
  subst hmode
  unfold parse_line
  simp [hl]

/-- Feeding further nonempty lines to the block machine in Ordinary mode
appends each line plus a space to the paragraph buffer. -/
theorem ParseLines_ordinary (ls : List (List Char)) :
    ∀ (st : PState), (∀ l ∈ ls, l ≠ []) → st.mode = PMode.ordinary →
    ParseLines ls st = Except.ok
      ({ st with
         lino := st.lino + ls.length,
         current_buffer := st.current_buffer ++ joinWithSpace ls }) := by
  induction ls with
  | nil =>
      intro st _ _
      obtain ⟨l0, m0, b0, v0, t0, c0, d0, e0, f0, g0, h0, i0, j0⟩ := st
      simp [ParseLines, joinWithSpace]
  | cons l ls' ih =>
      intro st hne hmode
      have hl : l ≠ [] := hne l (List.mem_cons_self l ls')
      rw [ParseLines]
      simp only [parse_line_ordinary_nonempty l { st with lino := st.lino + 1 } hmode hl]
      have hx := ih
        { st with lino := st.lino + 1,
                  current_buffer := st.current_buffer ++ l ++ [' '] }
        (fun x hx => hne x (List.mem_cons_of_mem _ hx)) hmode
      rw [hx]
      obtain ⟨l0, m0, b0, v0, t0, c0, d0, e0, f0, g0, h0, i0, j0⟩ := st
      simp [joinWithSpace_cons, List.append_assoc]
      omega

/-- A character other than the separator space occurs in the joined
paragraph buffer only if it occurs in one of the lines. -/
theorem not_mem_joinWithSpace {c : Char} (ls : List (List Char))
    (hc : c ≠ ' ') (h : ∀ l ∈ ls, c ∉ l) : c ∉ joinWithSpace ls := by
  induction ls with
  | nil => simp [joinWithSpace]
  | cons l ls' ih =>
      rw [joinWithSpace_cons]
      intro hmem
      rcases List.mem_append.mp hmem with h1 | h1
      · rcases List.mem_append.mp h1 with h2 | h2
        · exact h l (List.mem_cons_self l ls') h2
        · simp at h2
          exact hc h2
      · exact ih (fun x hx => h x (List.mem_cons_of_mem _ hx)) h1

/-- The first line of an ordinary paragraph switches the block machine from
None to Ordinary mode and seeds the buffer with the line plus a space. -/
theorem parse_line_none_ordinary (st : PState) (c : Char) (r : List Char)
    (hmode : st.mode = PMode.none)
    (hc : c ≠ '\x00' ∧ c ≠ '=' ∧ c ≠ ' ' ∧ c ≠ '\t') :
    parse_line (c :: r) st = Except.ok
      ({ st with mode := PMode.ordinary, current_buffer := (c :: r) ++ [' '] }) := by
  obtain ⟨l0, m0, b0, v0, t0, c0, d0, e0, f0, g0, h0, i0, j0⟩ := st
  simp only at hmode
  subst hmode
  unfold parse_line
  simp [hc.1, hc.2.1, hc.2.2.1, hc.2.2.2]

/-- C6 amended: for a document that is a single ordinary paragraph of plain
text (nonempty `<`-free lines, the first beginning with none of `=`, space,
tab, NUL), the entire parse output is exactly `ParaStart`,
`InlineText(text)`, `ParaEnd` — but the text is every line followed by one
space (each line's terminating newline is replaced by a space, *including*
the last line, so a space is appended after the paragraph's final line),
HTML-escaped character by character. -/
theorem C6_plain_paragraph_nodes (ls : List (List Char))
    (h0 : ls ≠ [])
    (h1 : ∀ l ∈ ls, l ≠ [] ∧ '\n' ∉ l ∧ '<' ∉ l)
    (h2 : ∀ c r, ls.head? = some (c :: r) →
          c ≠ '\x00' ∧ c ≠ '=' ∧ c ≠ ' ' ∧ c ≠ '\t') :
    Parse (joinLines ls) = Except.ok
      (stDone ls.length
        [PodNode.paraStart,
         PodNode.inlineText (htmlEscapeString (joinWithSpace ls)),
         PodNode.paraEnd]) := by
  cases ls with
  | nil => exact absurd rfl h0
  | cons l1 ls' =>
  obtain ⟨hl1ne, hl1nl, hl1lt⟩ := h1 l1 (List.mem_cons_self l1 ls')
  cases l1 with
  | nil => exact absurd rfl hl1ne
  | cons ch r =>
  have hcond := h2 ch r rfl
  have hjoin_ne : joinLines ((ch :: r) :: ls') ≠ [] := by
    cases ls' with
    | nil => simp [joinLines]
    | cons m ms => simp [joinLines]
  have hlines : getlines (joinLines ((ch :: r) :: ls')) = (ch :: r) :: ls' :=
    getlines_joinLines _ (by simp) (fun x hx => ⟨(h1 x hx).1, (h1 x hx).2.1⟩)
  have hBne : joinWithSpace ((ch :: r) :: ls') ≠ [] := by
    rw [joinWithSpace_cons]
    simp
  have hBlt : '<' ∉ joinWithSpace ((ch :: r) :: ls') :=
    not_mem_joinWithSpace _ (by decide) (fun x hx => (h1 x hx).2.2)
  -- the line loop: first line opens the paragraph, the rest extend it
  have hstep1 : parse_line (ch :: r) ({ initState with lino := initState.lino + 1 })
      = Except.ok (stOrd 1 ((ch :: r) ++ [' '])) :=
    parse_line_none_ordinary _ ch r rfl hcond
  have hrest : ParseLines ls' (stOrd 1 ((ch :: r) ++ [' '])) =
      Except.ok (stOrd (1 + ls'.length) (joinWithSpace ((ch :: r) :: ls'))) :=
    ParseLines_ordinary ls' _ (fun x hx => (h1 x (List.mem_cons_of_mem _ hx)).1) rfl
  have hPL : ParseLines ((ch :: r) :: ls') initState =
      Except.ok (stOrd (1 + ls'.length) (joinWithSpace ((ch :: r) :: ls'))) := by
    show (match parse_line (ch :: r) ({ initState with lino := initState.lino + 1 }) with
          | Except.error e => Except.error e
          | Except.ok st' => ParseLines ls' st') = _
    rw [hstep1]
    show ParseLines ls' (stOrd 1 ((ch :: r) ++ [' '])) = _
    exact hrest
  rw [Nat.add_comm 1 ls'.length] at hPL
  -- flushing the paragraph on the synthetic empty line
  have hmodes : ModesInactive (stOrdTok (ls'.length + 1)
      (joinWithSpace ((ch :: r) :: ls')) [PodNode.paraStart]).tokens :=
    ⟨rfl, rfl, rfl, rfl⟩
  have hrun : inlineGo (joinWithSpace ((ch :: r) :: ls')).length
      (joinWithSpace ((ch :: r) :: ls')) []
      (stOrdTok (ls'.length + 1) (joinWithSpace ((ch :: r) :: ls')) [PodNode.paraStart]) =
      Except.ok (stOrdTok (ls'.length + 1) (joinWithSpace ((ch :: r) :: ls'))
        [PodNode.paraStart,
         PodNode.inlineText (htmlEscapeString (joinWithSpace ((ch :: r) :: ls')))]) := by
    have h := inlineGo_plain_run (joinWithSpace ((ch :: r) :: ls')) []
      (joinWithSpace ((ch :: r) :: ls')).length
      (stOrdTok (ls'.length + 1) (joinWithSpace ((ch :: r) :: ls')) [PodNode.paraStart])
      hBlt (by simp) (by simp) hmodes rfl
    rw [List.append_nil] at h
    rw [h]
    show inlineGo ((joinWithSpace ((ch :: r) :: ls')).length -
        (joinWithSpace ((ch :: r) :: ls')).length) [] []
      (stOrdTok (ls'.length + 1) (joinWithSpace ((ch :: r) :: ls'))
        (pushTextMany [PodNode.paraStart] (joinWithSpace ((ch :: r) :: ls')))) = _
    rw [pushTextMany_fresh [PodNode.paraStart] _ (by intro u; simp) hBne,
        Nat.sub_self]
    exact rfl
  have hpi : parse_inline (joinWithSpace ((ch :: r) :: ls'))
      (stOrdTok (ls'.length + 1) (joinWithSpace ((ch :: r) :: ls')) [PodNode.paraStart]) =
      Except.ok (stOrdTok (ls'.length + 1) (joinWithSpace ((ch :: r) :: ls'))
        [PodNode.paraStart,
         PodNode.inlineText (htmlEscapeString (joinWithSpace ((ch :: r) :: ls')))]) := by
    show (match inlineGo (joinWithSpace ((ch :: r) :: ls')).length
            (joinWithSpace ((ch :: r) :: ls')) []
            (stOrdTok (ls'.length + 1) (joinWithSpace ((ch :: r) :: ls')) [PodNode.paraStart]) with
          | Except.error e => Except.error e
          | Except.ok st' => Except.ok ({ st' with tokens := zapGo st'.tokens 0 })) = _
    rw [hrun]
    show Except.ok ({ stOrdTok (ls'.length + 1) (joinWithSpace ((ch :: r) :: ls'))
        [PodNode.paraStart,
         PodNode.inlineText (htmlEscapeString (joinWithSpace ((ch :: r) :: ls')))] with
        tokens := zapGo [PodNode.paraStart,
          PodNode.inlineText (htmlEscapeString (joinWithSpace ((ch :: r) :: ls')))] 0 }) = _
    rw [zapGo_id _ (by
      intro n hn
      simp only [List.mem_cons, List.not_mem_nil, or_false] at hn
      rcases hn with h | h <;> subst h <;> rfl)]
    exact rfl
  have hord : parse_ordinary (joinWithSpace ((ch :: r) :: ls'))
      (stOrd (ls'.length + 1) (joinWithSpace ((ch :: r) :: ls'))) =
      Except.ok (stOrdTok (ls'.length + 1) (joinWithSpace ((ch :: r) :: ls'))
        [PodNode.paraStart,
         PodNode.inlineText (htmlEscapeString (joinWithSpace ((ch :: r) :: ls'))),
         PodNode.paraEnd]) := by
    show (match parse_inline (joinWithSpace ((ch :: r) :: ls'))
            (stOrdTok (ls'.length + 1) (joinWithSpace ((ch :: r) :: ls')) [PodNode.paraStart]) with
          | Except.error e => Except.error e
          | Except.ok st' => Except.ok ({ st' with tokens := st'.tokens ++ [PodNode.paraEnd] })) = _
    rw [hpi]
    exact rfl
  have hflush : parse_line [] (stOrd (ls'.length + 1) (joinWithSpace ((ch :: r) :: ls'))) =
      Except.ok (stDone (ls'.length + 1)
        [PodNode.paraStart,
         PodNode.inlineText (htmlEscapeString (joinWithSpace ((ch :: r) :: ls'))),
         PodNode.paraEnd]) := by
    show (match parse_ordinary (joinWithSpace ((ch :: r) :: ls'))
            (stOrd (ls'.length + 1) (joinWithSpace ((ch :: r) :: ls'))) with
          | Except.error e => Except.error e
          | Except.ok st' => Except.ok ({ st' with mode := PMode.none, current_buffer := [] })) = _
    rw [hord]
    exact rfl
  -- assembling the whole parse
  show Parse (joinLines ((ch :: r) :: ls')) = _
  unfold Parse
  rw [if_neg hjoin_ne, hlines, hPL]
  show parse_line [] (stOrd (ls'.length + 1) (joinWithSpace ((ch :: r) :: ls'))) = _
  exact hflush

/-- Witness for C6: the amended theorem applied to the two-line paragraph
`hi` / `yo>`. -/
theorem C6_plain_paragraph_nodes_witness :
    (["hi".data, "yo>".data] : List (List Char)) ≠ [] ∧
    Parse (joinLines ["hi".data, "yo>".data]) = Except.ok
      (stDone 2
        [PodNode.paraStart,
         PodNode.inlineText (htmlEscapeString (joinWithSpace ["hi".data, "yo>".data])),
         PodNode.paraEnd]) :=
  ⟨by decide,
   C6_plain_paragraph_nodes ["hi".data, "yo>".data] (by decide) (by decide)
     (by
       intro c r h
       have hc : c = 'h' ∧ r = ['i'] := by
         rw [show (["hi".data, "yo>".data] : List (List Char)).head? =
           some ['h', 'i'] from rfl] at h
         injection h with h2
         injection h2 with hc hr
         exact ⟨hc.symm, hr.symm⟩
       obtain ⟨rfl, rfl⟩ := hc
       decide)⟩

/-- C7 amended: markup-kind activity is determined by scanning the entire
token stream accumulated so far, not per-paragraph state: after a paragraph
left an unterminated `E<` (one unmatched Escape markup start), Escape is
still active during every later paragraph, so all plain characters of the
following paragraph `P` are routed into the escape buffer — the later
paragraph emits no visible text node at all, only its `ParaStart`/`ParaEnd`
pair, and the escape buffer ends as `"foo " ++ P ++ " "`. -/
theorem C7_escape_leaks_across_paragraphs (P : List Char)
    (h1 : P ≠ []) (h2 : '\n' ∉ P) (h3 : '<' ∉ P) (h4 : '>' ∉ P)
    (h5 : ∀ c r, P = c :: r → c ≠ '\x00' ∧ c ≠ '=' ∧ c ≠ ' ' ∧ c ≠ '\t') :
    Parse ("E<foo\n\n".data ++ P) = Except.ok
      (PState.mk 3 PMode.none false 0
        [PodNode.paraStart, PodNode.inlineMarkupStart Mtype.escape [],
         PodNode.paraEnd, PodNode.paraStart, PodNode.paraEnd]
        [] [] [] [] ("foo ".data ++ (P ++ [' '])) [] [] []) := by
  cases P with
  | nil => exact absurd rfl h1
  | cons ch r =>
  have hcond := h5 ch r rfl
  have hne : "E<foo\n\n".data ++ (ch :: r) ≠ [] := by simp
  have hg : getlines ("E<foo\n\n".data ++ (ch :: r)) =
      ["E<foo".data, [], ch :: r] := by
    show getlines ("E<foo".data ++ '\n' :: ([] ++ '\n' :: (ch :: r))) = _
    rw [getlines_cons _ _ (by decide), getlines_cons [] _ (by simp),
        getlines_single _ h2 (by simp)]
  have hs1 : parse_line "E<foo".data ({ initState with lino := initState.lino + 1 })
      = Except.ok (PState.mk 1 PMode.ordinary false 0 [] "E<foo ".data
          [] [] [] [] [] [] []) :=
    parse_line_none_ordinary _ 'E' "<foo".data rfl (by decide)
  have hs2 : parse_line []
      (PState.mk 2 PMode.ordinary false 0 [] "E<foo ".data [] [] [] [] [] [] [])
      = Except.ok (PState.mk 2 PMode.none false 0
          [PodNode.paraStart, PodNode.inlineMarkupStart Mtype.escape [],
           PodNode.paraEnd]
          [] [] [] [] "foo ".data [] [] []) := rfl
  have hs3 : parse_line (ch :: r)
      (PState.mk 3 PMode.none false 0
          [PodNode.paraStart, PodNode.inlineMarkupStart Mtype.escape [],
           PodNode.paraEnd]
          [] [] [] [] "foo ".data [] [] [])
      = Except.ok (PState.mk 3 PMode.ordinary false 0
          [PodNode.paraStart, PodNode.inlineMarkupStart Mtype.escape [],
           PodNode.paraEnd]
          ((ch :: r) ++ [' ']) [] [] [] "foo ".data [] [] []) :=
    parse_line_none_ordinary _ ch r rfl hcond
  have hPL : ParseLines ["E<foo".data, [], ch :: r] initState =
      Except.ok (PState.mk 3 PMode.ordinary false 0
          [PodNode.paraStart, PodNode.inlineMarkupStart Mtype.escape [],
           PodNode.paraEnd]
          ((ch :: r) ++ [' ']) [] [] [] "foo ".data [] [] []) := by
    show (match parse_line "E<foo".data ({ initState with lino := initState.lino + 1 }) with
          | Except.error e => Except.error e
          | Except.ok st' => ParseLines [[], ch :: r] st') = _
    rw [hs1]
    show (match parse_line []
            (PState.mk 2 PMode.ordinary false 0 [] "E<foo ".data [] [] [] [] [] [] []) with
          | Except.error e => Except.error e
          | Except.ok st' => ParseLines [ch :: r] st') = _
    rw [hs2]
    show (match parse_line (ch :: r)
            (PState.mk 3 PMode.none false 0
              [PodNode.paraStart, PodNode.inlineMarkupStart Mtype.escape [],
               PodNode.paraEnd]
              [] [] [] [] "foo ".data [] [] []) with
          | Except.error e => Except.error e
          | Except.ok st' => ParseLines [] st') = _
    rw [hs3]
    rfl
  -- flushing the second paragraph: Escape is still active, so all its
  -- characters go to the escape buffer
  have hrun := inlineGo_escape_run ((ch :: r) ++ [' ']) [] ((ch :: r) ++ [' ']).length []
      (PState.mk 3 PMode.ordinary false 0
          [PodNode.paraStart, PodNode.inlineMarkupStart Mtype.escape [],
           PodNode.paraEnd, PodNode.paraStart]
          ((ch :: r) ++ [' ']) [] [] [] "foo ".data [] [] [])
      (by
        intro hmem
        rcases List.mem_append.mp hmem with hm | hm
        · exact h3 hm
        · simp at hm)
      (by
        intro hmem
        rcases List.mem_append.mp hmem with hm | hm
        · exact h4 hm
        · simp at hm)
      (by simp) (by simp) rfl
  rw [List.append_nil, Nat.sub_self] at hrun
  have hpi : parse_inline ((ch :: r) ++ [' '])
      (PState.mk 3 PMode.ordinary false 0
          [PodNode.paraStart, PodNode.inlineMarkupStart Mtype.escape [],
           PodNode.paraEnd, PodNode.paraStart]
          ((ch :: r) ++ [' ']) [] [] [] "foo ".data [] [] [])
      = Except.ok (PState.mk 3 PMode.ordinary false 0
          [PodNode.paraStart, PodNode.inlineMarkupStart Mtype.escape [],
           PodNode.paraEnd, PodNode.paraStart]
          ((ch :: r) ++ [' ']) [] [] [] ("foo ".data ++ ((ch :: r) ++ [' '])) [] [] []) := by
    show (match inlineGo ((ch :: r) ++ [' ']).length ((ch :: r) ++ [' ']) []
            (PState.mk 3 PMode.ordinary false 0
              [PodNode.paraStart, PodNode.inlineMarkupStart Mtype.escape [],
               PodNode.paraEnd, PodNode.paraStart]
              ((ch :: r) ++ [' ']) [] [] [] "foo ".data [] [] []) with
          | Except.error e => Except.error e
          | Except.ok st' => Except.ok ({ st' with tokens := zapGo st'.tokens 0 })) = _
    rw [hrun]
    exact rfl
  have hord : parse_ordinary ((ch :: r) ++ [' '])
      (PState.mk 3 PMode.ordinary false 0
          [PodNode.paraStart, PodNode.inlineMarkupStart Mtype.escape [],
           PodNode.paraEnd]
          ((ch :: r) ++ [' ']) [] [] [] "foo ".data [] [] [])
      = Except.ok (PState.mk 3 PMode.ordinary false 0
          [PodNode.paraStart, PodNode.inlineMarkupStart Mtype.escape [],
           PodNode.paraEnd, PodNode.paraStart, PodNode.paraEnd]
          ((ch :: r) ++ [' ']) [] [] [] ("foo ".data ++ ((ch :: r) ++ [' '])) [] [] []) := by
    show (match parse_inline ((ch :: r) ++ [' '])
            (PState.mk 3 PMode.ordinary false 0
              [PodNode.paraStart, PodNode.inlineMarkupStart Mtype.escape [],
               PodNode.paraEnd, PodNode.paraStart]
              ((ch :: r) ++ [' ']) [] [] [] "foo ".data [] [] []) with
          | Except.error e => Except.error e
          | Except.ok st' => Except.ok ({ st' with tokens := st'.tokens ++ [PodNode.paraEnd] })) = _
    rw [hpi]
    exact rfl
  have hflush : parse_line []
      (PState.mk 3 PMode.ordinary false 0
          [PodNode.paraStart, PodNode.inlineMarkupStart Mtype.escape [],
           PodNode.paraEnd]
          ((ch :: r) ++ [' ']) [] [] [] "foo ".data [] [] [])
      = Except.ok (PState.mk 3 PMode.none false 0
          [PodNode.paraStart, PodNode.inlineMarkupStart Mtype.escape [],
           PodNode.paraEnd, PodNode.paraStart, PodNode.paraEnd]
          [] [] [] [] ("foo ".data ++ ((ch :: r) ++ [' '])) [] [] []) := by
    show (match parse_ordinary ((ch :: r) ++ [' '])
            (PState.mk 3 PMode.ordinary false 0
              [PodNode.paraStart, PodNode.inlineMarkupStart Mtype.escape [],
               PodNode.paraEnd]
              ((ch :: r) ++ [' ']) [] [] [] "foo ".data [] [] []) with
          | Except.error e => Except.error e
          | Except.ok st' => Except.ok ({ st' with mode := PMode.none, current_buffer := [] })) = _
    rw [hord]
  show Parse ("E<foo\n\n".data ++ (ch :: r)) = _
  unfold Parse
  rw [if_neg hne, hg, hPL]
  show parse_line []
      (PState.mk 3 PMode.ordinary false 0
          [PodNode.paraStart, PodNode.inlineMarkupStart Mtype.escape [],
           PodNode.paraEnd]
          ((ch :: r) ++ [' ']) [] [] [] "foo ".data [] [] []) = _
  exact hflush

/-- Witness for C7: the leak theorem applied to the paragraph `bar`. -/
theorem C7_escape_leaks_witness :
    ("bar".data : List Char) ≠ [] ∧
    Parse ("E<foo\n\n".data ++ "bar".data) = Except.ok
      (PState.mk 3 PMode.none false 0
        [PodNode.paraStart, PodNode.inlineMarkupStart Mtype.escape [],
         PodNode.paraEnd, PodNode.paraStart, PodNode.paraEnd]
        [] [] [] [] ("foo ".data ++ ("bar".data ++ [' '])) [] [] []) :=
  ⟨by decide,
   C7_escape_leaks_across_paragraphs "bar".data (by decide) (by decide) (by decide)
     (by decide)
     (by
       intro c r h
       have hc : c = 'b' ∧ r = ['a', 'r'] := by
         injection h with hc hr
         exact ⟨hc.symm, hr.symm⟩
       obtain ⟨rfl, rfl⟩ := hc
       decide)⟩

/-- Stripping trailing whitespace before a markup close is a no-op when the
token stream ends in a markup-start node (no preceding text node). -/
theorem stripLastText_markupStart (l : List PodNode) (t : Mtype)
    (a : List (List Char)) :
    stripLastText (l ++ [PodNode.inlineMarkupStart t a]) =
      Except.ok (l ++ [PodNode.inlineMarkupStart t a]) := by
  unfold stripLastText
  rw [List.getLast?_concat]

/-- The middle of the C8 paragraph: from the `X` of `X<foo bar>` to the end
of the paragraph buffer, with an arbitrary markup-free token prefix `pre`
already emitted.  The Index frame opens, the keyword accumulates in the
keyword buffer, the close emits `InlineMarkupEnd(Index, ["foo_bar"])` and
records the mapping, and the rest of the paragraph becomes plain text. -/
theorem C8_inline_mid (pre : List PodNode) (B BUF : List Char)
    (hB1 : '<' ∉ B)
    (hlev : ∀ t, inlineMarkupLevel pre t = 0) :
    inlineGo ((B ++ [' ']).length + 10) ("X<foo bar>".data ++ (B ++ [' '])) []
      (PState.mk 1 PMode.ordinary false 0 (PodNode.paraStart :: pre) BUF
        [] [] [] [] [] [] [])
    = Except.ok
      (PState.mk 1 PMode.ordinary false 0
        ((PodNode.paraStart :: pre) ++
         [PodNode.inlineMarkupStart Mtype.index [],
          PodNode.inlineMarkupEnd Mtype.index ["foo_bar".data],
          PodNode.inlineText (htmlEscapeString (B ++ [' ']))])
        BUF [] [] [("foo bar".data, "foo_bar".data)] [] [] [] []) := by
  have hsplit : (PodNode.paraStart :: pre) = [PodNode.paraStart] ++ pre := rfl
  have hact0 : ∀ t, is_inline_mode_active (PodNode.paraStart :: pre) t = false := by
    intro t
    unfold is_inline_mode_active
    rw [hsplit, inlineMarkupLevel_append, hlev]
    rfl
  have hact1 : ∀ t, is_inline_mode_active
      ((PodNode.paraStart :: pre) ++ [PodNode.inlineMarkupStart Mtype.index []]) t =
      decide (0 < inlineMarkupLevel [PodNode.inlineMarkupStart Mtype.index []] t) := by
    intro t
    unfold is_inline_mode_active
    rw [inlineMarkupLevel_append, hsplit, inlineMarkupLevel_append, hlev]
    simp [inlineMarkupLevel]
  have hBsp : (B ++ [' ']).head? ≠ some '<' :=
    head?_append_ne hB1 (by decide)
  -- step 1: the X< opens an Index frame
  have hopen : inlineOpen 'X' ('<' :: ("foo bar>".data ++ (B ++ [' '])))
      (PState.mk 1 PMode.ordinary false 0 (PodNode.paraStart :: pre) BUF
        [] [] [] [] [] [] []) =
      ("foo bar>".data ++ (B ++ [' ']), ⟨1, Mtype.index⟩,
       PState.mk 1 PMode.ordinary false 0
        ((PodNode.paraStart :: pre) ++ [PodNode.inlineMarkupStart Mtype.index []]) BUF
        [] [] [] [] [] [] []) := by
    unfold inlineOpen
    rw [hact0, hact0, hact0]
    rfl
  have hb : inlineGo ((B ++ [' ']).length + 10) ("X<foo bar>".data ++ (B ++ [' '])) []
      (PState.mk 1 PMode.ordinary false 0 (PodNode.paraStart :: pre) BUF
        [] [] [] [] [] [] []) =
      inlineGo ((B ++ [' ']).length + 9) ("foo bar>".data ++ (B ++ [' ']))
        [⟨1, Mtype.index⟩]
        (PState.mk 1 PMode.ordinary false 0
          ((PodNode.paraStart :: pre) ++ [PodNode.inlineMarkupStart Mtype.index []]) BUF
          [] [] [] [] [] [] []) := by
    show inlineGo (((B ++ [' ']).length + 9) + 1)
      ('X' :: ('<' :: ("foo bar>".data ++ (B ++ [' '])))) [] _ = _
    rw [inlineGo_cons_nil,
        if_pos (show (('<' :: ("foo bar>".data ++ (B ++ [' ']))) : List Char).head? =
          some '<' from rfl),
        hopen]
  -- step 2: the keyword characters go to the keyword buffer
  have hc : inlineGo ((B ++ [' ']).length + 9) ("foo bar>".data ++ (B ++ [' ']))
      [⟨1, Mtype.index⟩]
      (PState.mk 1 PMode.ordinary false 0
        ((PodNode.paraStart :: pre) ++ [PodNode.inlineMarkupStart Mtype.index []]) BUF
        [] [] [] [] [] [] []) =
      inlineGo ((B ++ [' ']).length + 2) ('>' :: (B ++ [' '])) [⟨1, Mtype.index⟩]
        (PState.mk 1 PMode.ordinary false 0
          ((PodNode.paraStart :: pre) ++ [PodNode.inlineMarkupStart Mtype.index []]) BUF
          [] [] [] [] "foo bar".data [] []) := by
    have h := inlineGo_index_run "foo bar".data ('>' :: (B ++ [' ']))
      ((B ++ [' ']).length + 9) [⟨1, Mtype.index⟩]
      (PState.mk 1 PMode.ordinary false 0
        ((PodNode.paraStart :: pre) ++ [PodNode.inlineMarkupStart Mtype.index []]) BUF
        [] [] [] [] [] [] [])
      (by decide) (by decide) (by simp)
      (by simp [List.length_append])
      (by rw [hact1]; rfl) (by rw [hact1]; rfl)
    exact h
  -- step 3: the > closes the Index frame
  have hclose : inlineClose ⟨1, Mtype.index⟩ (B ++ [' '])
      (PState.mk 1 PMode.ordinary false 0
        ((PodNode.paraStart :: pre) ++ [PodNode.inlineMarkupStart Mtype.index []]) BUF
        [] [] [] [] "foo bar".data [] []) =
      Except.ok (B ++ [' '],
        PState.mk 1 PMode.ordinary false 0
          ((PodNode.paraStart :: pre) ++ [PodNode.inlineMarkupStart Mtype.index [],
            PodNode.inlineMarkupEnd Mtype.index ["foo_bar".data]]) BUF
          [] [] [("foo bar".data, "foo_bar".data)] [] [] [] []) := by
    unfold inlineClose
    rw [stripLastText_markupStart]
    show Except.ok (List.drop 0 (B ++ [' ']), _) = _
    rw [List.drop_zero]
    show Except.ok (B ++ [' '],
      PState.mk 1 PMode.ordinary false 0
        (((PodNode.paraStart :: pre) ++ [PodNode.inlineMarkupStart Mtype.index []]) ++
          [PodNode.inlineMarkupEnd Mtype.index ["foo_bar".data]]) BUF
        [] [] [("foo bar".data, "foo_bar".data)] [] [] [] []) = _
    rw [List.append_assoc]
    rfl
  have hd : inlineGo ((B ++ [' ']).length + 2) ('>' :: (B ++ [' ']))
      [⟨1, Mtype.index⟩]
      (PState.mk 1 PMode.ordinary false 0
        ((PodNode.paraStart :: pre) ++ [PodNode.inlineMarkupStart Mtype.index []]) BUF
        [] [] [] [] "foo bar".data [] []) =
      inlineGo ((B ++ [' ']).length + 1) (B ++ [' ']) []
        (PState.mk 1 PMode.ordinary false 0
          ((PodNode.paraStart :: pre) ++ [PodNode.inlineMarkupStart Mtype.index [],
            PodNode.inlineMarkupEnd Mtype.index ["foo_bar".data]]) BUF
          [] [] [("foo bar".data, "foo_bar".data)] [] [] [] []) := by
    show inlineGo (((B ++ [' ']).length + 1) + 1) ('>' :: (B ++ [' ']))
      [⟨1, Mtype.index⟩] _ = _
    rw [inlineGo_cons_stack, if_neg hBsp, if_pos rfl,
        if_pos (show List.take ({ angle_count := 1, type := Mtype.index } :
            PodFrame).angle_count ('>' :: (B ++ [' '])) =
          List.replicate ({ angle_count := 1, type := Mtype.index } :
            PodFrame).angle_count '>' from rfl),
        hclose]
  -- step 4: the rest of the paragraph is plain text
  have hact2 : ModesInactive
      ((PodNode.paraStart :: pre) ++ [PodNode.inlineMarkupStart Mtype.index [],
        PodNode.inlineMarkupEnd Mtype.index ["foo_bar".data]]) := by
    refine ⟨?_, ?_, ?_, ?_⟩ <;>
      (unfold is_inline_mode_active
       rw [inlineMarkupLevel_append, hsplit, inlineMarkupLevel_append, hlev]
       rfl)
  have he : inlineGo ((B ++ [' ']).length + 1) (B ++ [' ']) []
      (PState.mk 1 PMode.ordinary false 0
        ((PodNode.paraStart :: pre) ++ [PodNode.inlineMarkupStart Mtype.index [],
          PodNode.inlineMarkupEnd Mtype.index ["foo_bar".data]]) BUF
        [] [] [("foo bar".data, "foo_bar".data)] [] [] [] []) =
      Except.ok
        (PState.mk 1 PMode.ordinary false 0
          ((PodNode.paraStart :: pre) ++
           [PodNode.inlineMarkupStart Mtype.index [],
            PodNode.inlineMarkupEnd Mtype.index ["foo_bar".data],
            PodNode.inlineText (htmlEscapeString (B ++ [' ']))])
          BUF [] [] [("foo bar".data, "foo_bar".data)] [] [] [] []) := by
    have h := inlineGo_plain_run (B ++ [' ']) [] ((B ++ [' ']).length + 1)
      (PState.mk 1 PMode.ordinary false 0
        ((PodNode.paraStart :: pre) ++ [PodNode.inlineMarkupStart Mtype.index [],
          PodNode.inlineMarkupEnd Mtype.index ["foo_bar".data]]) BUF
        [] [] [("foo bar".data, "foo_bar".data)] [] [] [] [])
      (by
        intro hmem
        rcases List.mem_append.mp hmem with hm | hm
        · exact hB1 hm
        · simp at hm)
      (by simp) (by simp) hact2 rfl
    rw [List.append_nil] at h
    rw [h]
    rw [pushTextMany_fresh _ _ (by
        intro u
        rw [show ((PodNode.paraStart :: pre) ++ [PodNode.inlineMarkupStart Mtype.index [],
          PodNode.inlineMarkupEnd Mtype.index ["foo_bar".data]]) =
          (((PodNode.paraStart :: pre) ++ [PodNode.inlineMarkupStart Mtype.index []]) ++
           [PodNode.inlineMarkupEnd Mtype.index ["foo_bar".data]]) from by
            rw [List.append_assoc]; rfl]
        rw [List.getLast?_concat]
        simp) (by simp)]
    have hfe : (B ++ [' ']).length + 1 - (B ++ [' ']).length = 1 := by omega
    rw [hfe]
    show Except.ok _ = _
    rw [List.append_assoc]
    rfl
  rw [hb, hc, hd, he]

/-- C8 amended: for every single-line, single-paragraph document
`A ++ "X<foo bar>" ++ B` whose surrounding text `A`, `B` is plain (free of
`<` and newlines, `A` not opening a command or verbatim block), the inline
engine emits `InlineMarkupEnd(Index, ["foo_bar"])`, records the mapping
`"foo bar" -> "foo_bar"` in the index table, and the only visible text
nodes are the escapes of `A` and of `B ++ " "` — no part of "foo bar"
reaches the visible text.  (The keyword is claimed for contexts where no
Escape/Index markup is already active; inside `E<...>` the routing differs,
see the counterexample.) -/
theorem C8_index_keyword_general (A B : List Char)
    (hA1 : '<' ∉ A) (hA2 : '\n' ∉ A)
    (hB1 : '<' ∉ B) (hB2 : '\n' ∉ B)
    (hhead : ∀ c r, A = c :: r → c ≠ '\x00' ∧ c ≠ '=' ∧ c ≠ ' ' ∧ c ≠ '\t') :
    Parse (A ++ "X<foo bar>".data ++ B) = Except.ok
      (PState.mk 1 PMode.none false 0
        (PodNode.paraStart ::
         ((if A = [] then [] else [PodNode.inlineText (htmlEscapeString A)]) ++
          [PodNode.inlineMarkupStart Mtype.index [],
           PodNode.inlineMarkupEnd Mtype.index ["foo_bar".data],
           PodNode.inlineText (htmlEscapeString (B ++ [' '])),
           PodNode.paraEnd]))
        [] [] [] [("foo bar".data, "foo_bar".data)] [] [] [] []) := by
  have hdoc_ne : A ++ "X<foo bar>".data ++ B ≠ [] := by simp
  have hdoc_nl : '\n' ∉ A ++ "X<foo bar>".data ++ B := by
    intro hm
    rcases List.mem_append.mp hm with hm1 | hm1
    · rcases List.mem_append.mp hm1 with hm2 | hm2
      · exact hA2 hm2
      · revert hm2; decide
    · exact hB2 hm1
  have hlines : getlines (A ++ "X<foo bar>".data ++ B) =
      [A ++ "X<foo bar>".data ++ B] := getlines_single _ hdoc_nl hdoc_ne
  have hline1 : parse_line (A ++ "X<foo bar>".data ++ B)
      ({ initState with lino := initState.lino + 1 }) =
      Except.ok (PState.mk 1 PMode.ordinary false 0 []
        ((A ++ "X<foo bar>".data ++ B) ++ [' ']) [] [] [] [] [] [] []) := by
    cases A with
    | nil => exact parse_line_none_ordinary _ 'X' ("<foo bar>".data ++ B) rfl (by decide)
    | cons a r =>
        exact parse_line_none_ordinary _ a ((r ++ "X<foo bar>".data) ++ B) rfl
          (hhead a r rfl)
  have hPL : ParseLines [A ++ "X<foo bar>".data ++ B] initState =
      Except.ok (PState.mk 1 PMode.ordinary false 0 []
        ((A ++ "X<foo bar>".data ++ B) ++ [' ']) [] [] [] [] [] [] []) := by
    show (match parse_line (A ++ "X<foo bar>".data ++ B)
            ({ initState with lino := initState.lino + 1 }) with
          | Except.error e => Except.error e
          | Except.ok st' => ParseLines [] st') = _
    rw [hline1]
    exact rfl
  obtain ⟨pre, hpre_tokens, hpre_lev, hpre_zap, hpre_if⟩ :
      ∃ pre, pushTextMany [PodNode.paraStart] A = PodNode.paraStart :: pre ∧
        (∀ t, inlineMarkupLevel pre t = 0) ∧
        (∀ n ∈ pre, isZapMarkupNode n = false) ∧
        pre = (if A = [] then []
               else [PodNode.inlineText (htmlEscapeString A)]) := by
    cases A with
    | nil => exact ⟨[], rfl, fun t => rfl, by simp, by simp⟩
    | cons a r =>
        refine ⟨[PodNode.inlineText (htmlEscapeString (a :: r))], ?_,
          fun t => inlineMarkupLevel_text _ t, ?_, by simp⟩
        · rw [pushTextMany_fresh _ _ (by intro u; simp) (by simp)]
          exact rfl
        · intro n hn
          simp only [List.mem_singleton] at hn
          subst hn
          rfl
  have hbuf : (A ++ "X<foo bar>".data ++ B) ++ [' '] =
      A ++ ("X<foo bar>".data ++ (B ++ [' '])) := by
    simp [List.append_assoc]
  have hfuel : (A ++ ("X<foo bar>".data ++ (B ++ [' ']))).length - A.length =
      (B ++ [' ']).length + 10 := by
    rw [List.length_append, show ("X<foo bar>".data ++ (B ++ [' '])).length =
      (B ++ [' ']).length + 10 from by
        rw [List.length_append,
            show ("X<foo bar>".data : List Char).length = 10 from rfl]
        omega]
    omega
  have hXhead : ("X<foo bar>".data ++ (B ++ [' '])).head? ≠ some '<' := by
    rw [show ("X<foo bar>".data ++ (B ++ [' '])).head? = some 'X' from rfl]
    decide
  have hinl : inlineGo (A ++ ("X<foo bar>".data ++ (B ++ [' ']))).length
      (A ++ ("X<foo bar>".data ++ (B ++ [' ']))) []
      (PState.mk 1 PMode.ordinary false 0 [PodNode.paraStart]
        (A ++ ("X<foo bar>".data ++ (B ++ [' ']))) [] [] [] [] [] [] []) =
      Except.ok
        (PState.mk 1 PMode.ordinary false 0
          ((PodNode.paraStart :: pre) ++
           [PodNode.inlineMarkupStart Mtype.index [],
            PodNode.inlineMarkupEnd Mtype.index ["foo_bar".data],
            PodNode.inlineText (htmlEscapeString (B ++ [' ']))])
          (A ++ ("X<foo bar>".data ++ (B ++ [' '])))
          [] [] [("foo bar".data, "foo_bar".data)] [] [] [] []) := by
    rw [inlineGo_plain_run A ("X<foo bar>".data ++ (B ++ [' ']))
        (A ++ ("X<foo bar>".data ++ (B ++ [' ']))).length
        (PState.mk 1 PMode.ordinary false 0 [PodNode.paraStart]
          (A ++ ("X<foo bar>".data ++ (B ++ [' ']))) [] [] [] [] [] [] [])
        hA1 hXhead (le_refl _) ⟨rfl, rfl, rfl, rfl⟩ rfl]
    rw [hfuel]
    show inlineGo ((B ++ [' ']).length + 10) ("X<foo bar>".data ++ (B ++ [' '])) []
      (PState.mk 1 PMode.ordinary false 0 (pushTextMany [PodNode.paraStart] A)
        (A ++ ("X<foo bar>".data ++ (B ++ [' ']))) [] [] [] [] [] [] []) = _
    rw [hpre_tokens]
    exact C8_inline_mid pre B _ hB1 hpre_lev
  have hzapid : zapGo ((PodNode.paraStart :: pre) ++
      [PodNode.inlineMarkupStart Mtype.index [],
       PodNode.inlineMarkupEnd Mtype.index ["foo_bar".data],
       PodNode.inlineText (htmlEscapeString (B ++ [' ']))]) 0 =
      (PodNode.paraStart :: pre) ++
      [PodNode.inlineMarkupStart Mtype.index [],
       PodNode.inlineMarkupEnd Mtype.index ["foo_bar".data],
       PodNode.inlineText (htmlEscapeString (B ++ [' ']))] := by
    refine zapGo_id _ ?_
    intro n hn
    rcases List.mem_append.mp hn with hm | hm
    · rcases List.mem_cons.mp hm with hm1 | hm1
      · subst hm1; rfl
      · exact hpre_zap n hm1
    · simp only [List.mem_cons, List.not_mem_nil, or_false] at hm
      rcases hm with h | h | h <;> subst h <;> rfl
  have hpi : parse_inline ((A ++ "X<foo bar>".data ++ B) ++ [' '])
      (PState.mk 1 PMode.ordinary false 0 [PodNode.paraStart]
        ((A ++ "X<foo bar>".data ++ B) ++ [' ']) [] [] [] [] [] [] []) =
      Except.ok
        (PState.mk 1 PMode.ordinary false 0
          ((PodNode.paraStart :: pre) ++
           [PodNode.inlineMarkupStart Mtype.index [],
            PodNode.inlineMarkupEnd Mtype.index ["foo_bar".data],
            PodNode.inlineText (htmlEscapeString (B ++ [' ']))])
          ((A ++ "X<foo bar>".data ++ B) ++ [' '])
          [] [] [("foo bar".data, "foo_bar".data)] [] [] [] []) := by
    show (match inlineGo ((A ++ "X<foo bar>".data ++ B) ++ [' ']).length
            ((A ++ "X<foo bar>".data ++ B) ++ [' ']) []
            (PState.mk 1 PMode.ordinary false 0 [PodNode.paraStart]
              ((A ++ "X<foo bar>".data ++ B) ++ [' ']) [] [] [] [] [] [] []) with
          | Except.error e => Except.error e
          | Except.ok st' => Except.ok ({ st' with tokens := zapGo st'.tokens 0 })) = _
    rw [hbuf, hinl]
    show Except.ok
      ({ PState.mk 1 PMode.ordinary false 0
          ((PodNode.paraStart :: pre) ++
           [PodNode.inlineMarkupStart Mtype.index [],
            PodNode.inlineMarkupEnd Mtype.index ["foo_bar".data],
            PodNode.inlineText (htmlEscapeString (B ++ [' ']))])
          (A ++ ("X<foo bar>".data ++ (B ++ [' '])))
          [] [] [("foo bar".data, "foo_bar".data)] [] [] [] [] with
        tokens := zapGo ((PodNode.paraStart :: pre) ++
          [PodNode.inlineMarkupStart Mtype.index [],
           PodNode.inlineMarkupEnd Mtype.index ["foo_bar".data],
           PodNode.inlineText (htmlEscapeString (B ++ [' ']))]) 0 }) = _
    rw [hzapid]
  have hord : parse_ordinary ((A ++ "X<foo bar>".data ++ B) ++ [' '])
      (PState.mk 1 PMode.ordinary false 0 []
        ((A ++ "X<foo bar>".data ++ B) ++ [' ']) [] [] [] [] [] [] []) =
      Except.ok
        (PState.mk 1 PMode.ordinary false 0
          (((PodNode.paraStart :: pre) ++
           [PodNode.inlineMarkupStart Mtype.index [],
            PodNode.inlineMarkupEnd Mtype.index ["foo_bar".data],
            PodNode.inlineText (htmlEscapeString (B ++ [' ']))]) ++ [PodNode.paraEnd])
          ((A ++ "X<foo bar>".data ++ B) ++ [' '])
          [] [] [("foo bar".data, "foo_bar".data)] [] [] [] []) := by
    show (match parse_inline ((A ++ "X<foo bar>".data ++ B) ++ [' '])
            (PState.mk 1 PMode.ordinary false 0 [PodNode.paraStart]
              ((A ++ "X<foo bar>".data ++ B) ++ [' ']) [] [] [] [] [] [] []) with
          | Except.error e => Except.error e
          | Except.ok st' =>
              Except.ok ({ st' with tokens := st'.tokens ++ [PodNode.paraEnd] })) = _
    rw [hpi]
  have hflush : parse_line []
      (PState.mk 1 PMode.ordinary false 0 []
        ((A ++ "X<foo bar>".data ++ B) ++ [' ']) [] [] [] [] [] [] []) =
      Except.ok
        (PState.mk 1 PMode.none false 0
          (((PodNode.paraStart :: pre) ++
           [PodNode.inlineMarkupStart Mtype.index [],
            PodNode.inlineMarkupEnd Mtype.index ["foo_bar".data],
            PodNode.inlineText (htmlEscapeString (B ++ [' ']))]) ++ [PodNode.paraEnd])
          [] [] [] [("foo bar".data, "foo_bar".data)] [] [] [] []) := by
    show (match parse_ordinary ((A ++ "X<foo bar>".data ++ B) ++ [' '])
            (PState.mk 1 PMode.ordinary false 0 []
              ((A ++ "X<foo bar>".data ++ B) ++ [' ']) [] [] [] [] [] [] []) with
          | Except.error e => Except.error e
          | Except.ok st' =>
              Except.ok ({ st' with mode := PMode.none, current_buffer := [] })) = _
    rw [hord]
  show Parse (A ++ "X<foo bar>".data ++ B) = _
  unfold Parse
  rw [if_neg hdoc_ne, hlines, hPL]
  show parse_line []
      (PState.mk 1 PMode.ordinary false 0 []
        ((A ++ "X<foo bar>".data ++ B) ++ [' ']) [] [] [] [] [] [] []) = _
  rw [hflush, ← hpre_if]
  simp [List.append_assoc]

/-- Witness for C8: the general theorem applied to `see X<foo bar> ok`. -/
theorem C8_index_keyword_general_witness :
    ('<' ∉ ("see ".data : List Char)) ∧
    Parse ("see ".data ++ "X<foo bar>".data ++ " ok".data) = Except.ok
      (PState.mk 1 PMode.none false 0
        (PodNode.paraStart ::
         ((if ("see ".data : List Char) = [] then []
           else [PodNode.inlineText (htmlEscapeString "see ".data)]) ++
          [PodNode.inlineMarkupStart Mtype.index [],
           PodNode.inlineMarkupEnd Mtype.index ["foo_bar".data],
           PodNode.inlineText (htmlEscapeString (" ok".data ++ [' '])),
           PodNode.paraEnd]))
        [] [] [] [("foo bar".data, "foo_bar".data)] [] [] [] []) :=
  ⟨by decide,
   C8_index_keyword_general "see ".data " ok".data (by decide) (by decide)
     (by decide) (by decide)
     (by
       intro c r h
       have hc : c = 's' ∧ r = "ee ".data := by
         injection h with hc hr
         exact ⟨hc.symm, hr.symm⟩
       obtain ⟨rfl, rfl⟩ := hc
       decide)⟩

/-- Inversion for `Bal` at a non-markup last node: the prefix is balanced
too. -/
theorem bal_concat_inv {l : List PodNode} (h : Bal l) :
    ∀ b x, l = b ++ [x] → IsMarkupNode x = false → Bal b := by
  induction h with
  | nil =>
      intro b x hbx _hx
      exact absurd hbx.symm (by simp)
  | nonmarkup b' x' hb' _hx' _ih =>
      intro b x hbx hx
      obtain ⟨h1, _h2⟩ := List.append_inj' hbx rfl
      rw [← h1]; exact hb'
  | group b' c t1 a1 t2 a2 _hb _hc _ihb _ihc =>
      intro b x hbx hx
      have hx2 : x = PodNode.inlineMarkupEnd t2 a2 := by
        have hco : (b' ++ PodNode.inlineMarkupStart t1 a1 ::
            (c ++ [PodNode.inlineMarkupEnd t2 a2])) =
            (b' ++ PodNode.inlineMarkupStart t1 a1 :: c) ++
              [PodNode.inlineMarkupEnd t2 a2] := by simp
        have hg := congrArg List.getLast? (hco.symm.trans hbx)
        rw [List.getLast?_concat, List.getLast?_concat] at hg
        exact (Option.some.injEq _ _ ▸ hg).symm
      rw [hx2] at hx
      simp [IsMarkupNode] at hx

/-- The backward link-argument scan skips over a reversed balanced segment:
every end node it meets is matched by a start inside the segment, so the
level returns to its entry value and the scan continues behind the
segment. -/
theorem addLinkArgRev_bal {b : List PodNode} (hb : Bal b) (t : Mtype)
    (arg : List Char) :
    ∀ (k : Nat) (rest : List PodNode),
    addLinkArgRev t arg (b.reverse ++ rest) k =
      (addLinkArgRev t arg rest k).map (fun r => b.reverse ++ r) := by
  induction hb with
  | nil =>
      intro k rest
      simp
  | nonmarkup b' x hb' hx ih =>
      intro k rest
      have hrev : (b' ++ [x]).reverse = x :: b'.reverse := by simp
      rw [hrev]
      cases x <;> simp [IsMarkupNode] at hx <;>
        simp only [List.cons_append, addLinkArgRev, List.append_eq] <;>
        rw [ih] <;>
        cases addLinkArgRev t arg rest k <;> simp
  | group b' c t1 a1 t2 a2 _hb _hc ihb ihc =>
      intro k rest
      have hrev : (b' ++ PodNode.inlineMarkupStart t1 a1 ::
          (c ++ [PodNode.inlineMarkupEnd t2 a2])).reverse =
          PodNode.inlineMarkupEnd t2 a2 ::
            (c.reverse ++ (PodNode.inlineMarkupStart t1 a1 :: b'.reverse)) := by
        simp
      rw [hrev]
      simp only [List.cons_append, addLinkArgRev, List.append_eq]
      rw [List.append_assoc, ihc (k + 1), List.cons_append]
      simp only [addLinkArgRev, List.append_eq]
      rw [if_pos (Nat.succ_pos k), Nat.add_sub_cancel, ihb k rest]
      cases addLinkArgRev t arg rest k <;> simp

/-- Attaching a link argument succeeds on a stream that ends in a Link
markup-start node followed by a balanced segment, and simply appends the
argument to that node's list. -/
theorem addLinkArg_decomp (pre : List PodNode) (targs : List (List Char))
    {b : List PodNode} (hb : Bal b) (arg : List Char) :
    addLinkArg (pre ++ PodNode.inlineMarkupStart Mtype.link targs :: b)
        Mtype.link arg =
      some (pre ++ PodNode.inlineMarkupStart Mtype.link (targs ++ [arg]) :: b) := by
  unfold addLinkArg
  have hrev : (pre ++ PodNode.inlineMarkupStart Mtype.link targs :: b).reverse
      = b.reverse ++ (PodNode.inlineMarkupStart Mtype.link targs :: pre.reverse) := by
    simp
  rw [hrev, addLinkArgRev_bal hb Mtype.link arg 0 _]
  simp only [addLinkArgRev]
  norm_num

/-- Appending a non-markup node preserves the frame-stack invariant. -/
theorem stackInv_append_nonmarkup {toks : List PodNode} {stack : List PodFrame}
    (h : StackInv toks stack) (x : PodNode) (hx : IsMarkupNode x = false) :
    StackInv (toks ++ [x]) stack := by
  cases stack with
  | nil => exact trivial
  | cons f fs =>
      have h' : ∃ pre args b,
          toks = pre ++ PodNode.inlineMarkupStart f.type args :: b ∧
          Bal b ∧ StackInv pre fs := h
      obtain ⟨pre, args, b, heq, hbal, hpre⟩ := h'
      show ∃ pre args b,
          toks ++ [x] = pre ++ PodNode.inlineMarkupStart f.type args :: b ∧
          Bal b ∧ StackInv pre fs
      refine ⟨pre, args, b ++ [x], ?_, Bal.nonmarkup b x hbal hx, hpre⟩
      rw [heq]; simp

/-- Replacing the text of a trailing inline-text node preserves the
frame-stack invariant. -/
theorem stackInv_set_last_text (l : List PodNode) (stack : List PodFrame)
    (u v : List Char)
    (h : StackInv (l ++ [PodNode.inlineText u]) stack) :
    StackInv (l ++ [PodNode.inlineText v]) stack := by
  cases stack with
  | nil => exact trivial
  | cons f fs =>
      have h' : ∃ pre args b,
          l ++ [PodNode.inlineText u] =
            pre ++ PodNode.inlineMarkupStart f.type args :: b ∧
          Bal b ∧ StackInv pre fs := h
      obtain ⟨pre, args, b, heq, hbal, hpre⟩ := h'
      rcases List.eq_nil_or_concat b with hb | ⟨b0, y, hb⟩
      · rw [hb] at heq
        have hg := congrArg List.getLast? heq
        rw [List.getLast?_concat] at hg
        have hco : pre ++ [PodNode.inlineMarkupStart f.type args] =
            pre ++ PodNode.inlineMarkupStart f.type args :: ([] : List PodNode) := by
          simp
        rw [← hco, List.getLast?_concat] at hg
        simp at hg
      · rw [List.concat_eq_append] at hb
        rw [hb] at heq hbal
        have heq2 : l ++ [PodNode.inlineText u] =
            (pre ++ PodNode.inlineMarkupStart f.type args :: b0) ++ [y] := by
          rw [heq]; simp
        obtain ⟨h1, h2⟩ := List.append_inj' heq2 rfl
        have hy : PodNode.inlineText u = y := by
          injection h2 with hy _
        rw [← hy] at hbal
        have hb0 : Bal b0 := bal_concat_inv hbal b0 (PodNode.inlineText u) rfl rfl
        show ∃ pre args b,
            l ++ [PodNode.inlineText v] =
              pre ++ PodNode.inlineMarkupStart f.type args :: b ∧
            Bal b ∧ StackInv pre fs
        refine ⟨pre, args, b0 ++ [PodNode.inlineText v], ?_,
          Bal.nonmarkup b0 (PodNode.inlineText v) hb0 rfl, hpre⟩
        rw [h1]; simp

/-- `pushText` preserves the frame-stack invariant. -/
theorem stackInv_pushText (toks : List PodNode) (stack : List PodFrame)
    (h : StackInv toks stack) (s : List Char) :
    StackInv (pushText toks s) stack := by
  unfold pushText
  cases hl : toks.getLast? with
  | none => exact stackInv_append_nonmarkup h _ rfl
  | some n =>
      cases n <;> first
        | exact stackInv_append_nonmarkup h _ rfl
        | · rename_i u
            have hdec := List.dropLast_append_getLast? (PodNode.inlineText u)
              (show PodNode.inlineText u ∈ toks.getLast? from hl)
            refine stackInv_set_last_text toks.dropLast stack u (u ++ s) ?_
            rw [hdec]; exact h

/-- The whitespace-strip loop can only fail with the empty-string
out-of-bounds read. -/
theorem stripTrailingRev_error {s : List Char} {e : Err}
    (h : stripTrailingRev s = Except.error e) :
    e = Err.stringIndexOutOfRange := by
  induction s with
  | nil =>
      simp only [stripTrailingRev, Except.error.injEq] at h
      exact h.symm
  | cons c rest ih =>
      simp only [stripTrailingRev] at h
      by_cases hc : c = ' '
      · rw [if_pos hc] at h; exact ih h
      · rw [if_neg hc] at h; exact absurd h (by simp)

/-- `StripTrailingWhitespace` can only fail with the empty-string
out-of-bounds read. -/
theorem stripTrailingWhitespace_error {s : List Char} {e : Err}
    (h : stripTrailingWhitespace s = Except.error e) :
    e = Err.stringIndexOutOfRange := by
  unfold stripTrailingWhitespace at h
  cases hr : stripTrailingRev s.reverse with
  | ok r => rw [hr] at h; exact absurd h (by simp)
  | error e' =>
      rw [hr] at h
      simp only [Except.error.injEq] at h
      rw [← h]
      exact stripTrailingRev_error hr

/-- The guarded strip of a trailing text node can only fail with the
empty-string out-of-bounds read. -/
theorem stripLastText_error {toks : List PodNode} {e : Err}
    (h : stripLastText toks = Except.error e) :
    e = Err.stringIndexOutOfRange := by
  unfold stripLastText at h
  cases hl : toks.getLast? with
  | none => rw [hl] at h; exact absurd h (by simp)
  | some n =>
      rw [hl] at h
      cases n <;> simp only [] at h <;> try exact absurd h (by simp)
      rename_i s
      cases hw : stripTrailingWhitespace s with
      | ok s' => rw [hw] at h; exact absurd h (by simp)
      | error e' =>
          rw [hw] at h
          simp only [Except.error.injEq] at h
          rw [← h]
          exact stripTrailingWhitespace_error hw

/-- A successful guarded strip preserves the frame-stack invariant. -/
theorem stripLastText_ok_stackInv (toks : List PodNode)
    (stack : List PodFrame) (toks2 : List PodNode)
    (h : StackInv toks stack)
    (hs : stripLastText toks = Except.ok toks2) : StackInv toks2 stack := by
  unfold stripLastText at hs
  cases hl : toks.getLast? with
  | none =>
      rw [hl] at hs
      simp only [Except.ok.injEq] at hs
      rw [← hs]; exact h
  | some n =>
      rw [hl] at hs
      cases n <;> simp only [] at hs <;>
        first
          | · simp only [Except.ok.injEq] at hs
              rw [← hs]; exact h
          | · rename_i s
              cases hw : stripTrailingWhitespace s with
              | error e' => rw [hw] at hs; exact absurd hs (by simp)
              | ok s' =>
                  rw [hw] at hs
                  simp only [Except.ok.injEq] at hs
                  rw [← hs]
                  have hdec := List.dropLast_append_getLast? (PodNode.inlineText s)
                    (show PodNode.inlineText s ∈ toks.getLast? from hl)
                  refine stackInv_set_last_text toks.dropLast stack s s' ?_
                  rw [hdec]; exact h

/-- Opening a markup frame extends the invariant by one frame. -/
theorem stackInv_open (toks : List PodNode) (stack : List PodFrame)
    (h : StackInv toks stack) (t : Mtype) (args : List (List Char)) (n : Nat) :
    StackInv (toks ++ [PodNode.inlineMarkupStart t args])
      ({ angle_count := n, type := t } :: stack) := by
  show ∃ pre args' b,
      toks ++ [PodNode.inlineMarkupStart t args] =
        pre ++ PodNode.inlineMarkupStart t args' :: b ∧
      Bal b ∧ StackInv pre stack
  exact ⟨toks, args, [], rfl, Bal.nil, h⟩

/-- Closing the top frame with any markup-end node pops it from the
invariant: the finished group is balanced. -/
theorem stackInv_close (toks : List PodNode) (f : PodFrame)
    (fs : List PodFrame) (h : StackInv toks (f :: fs)) (t2 : Mtype)
    (a2 : List (List Char)) :
    StackInv (toks ++ [PodNode.inlineMarkupEnd t2 a2]) fs := by
  have h' : ∃ pre args b,
      toks = pre ++ PodNode.inlineMarkupStart f.type args :: b ∧
      Bal b ∧ StackInv pre fs := h
  obtain ⟨pre, args, b, heq, hbal, hpre⟩ := h'
  cases fs with
  | nil => exact trivial
  | cons g gs =>
      have h2 : ∃ pre2 args2 b2,
          pre = pre2 ++ PodNode.inlineMarkupStart g.type args2 :: b2 ∧
          Bal b2 ∧ StackInv pre2 gs := hpre
      obtain ⟨pre2, args2, b2, heq2, hbal2, hpre2⟩ := h2
      show ∃ p a bb,
          toks ++ [PodNode.inlineMarkupEnd t2 a2] =
            p ++ PodNode.inlineMarkupStart g.type a :: bb ∧
          Bal bb ∧ StackInv p gs
      refine ⟨pre2, args2,
        b2 ++ (PodNode.inlineMarkupStart f.type args ::
          (b ++ [PodNode.inlineMarkupEnd t2 a2])), ?_,
        Bal.group b2 b f.type args t2 a2 hbal2 hbal, hpre2⟩
      rw [heq, heq2]; simp

/-- Closing a Link frame: the backward scan finds the frame's own
markup-start node, so attaching the link content succeeds, and pushing the
end node afterwards pops the frame from the invariant. -/
theorem stackInv_close_link (toks : List PodNode) (f : PodFrame)
    (fs : List PodFrame) (h : StackInv toks (f :: fs))
    (hf : f.type = Mtype.link) (arg : List Char) :
    ∃ toks2, addLinkArg toks Mtype.link arg = some toks2 ∧
      StackInv (toks2 ++ [PodNode.inlineMarkupEnd Mtype.link []]) fs := by
  have h' : ∃ pre args b,
      toks = pre ++ PodNode.inlineMarkupStart f.type args :: b ∧
      Bal b ∧ StackInv pre fs := h
  obtain ⟨pre, args, b, heq, hbal, hpre⟩ := h'
  rw [hf] at heq
  refine ⟨pre ++ PodNode.inlineMarkupStart Mtype.link (args ++ [arg]) :: b,
    ?_, ?_⟩
  · rw [heq]; exact addLinkArg_decomp pre args hbal arg
  · have hinv : StackInv
        (pre ++ PodNode.inlineMarkupStart Mtype.link (args ++ [arg]) :: b)
        (f :: fs) := by
      show ∃ p a bb, _ = p ++ PodNode.inlineMarkupStart f.type a :: bb ∧
        Bal bb ∧ StackInv p fs
      exact ⟨pre, args ++ [arg], b, by rw [hf], hbal, hpre⟩
    exact stackInv_close _ f fs hinv Mtype.link []

/-- The plain-character step only pushes text (or leaves the stream alone),
so it preserves the frame-stack invariant. -/
theorem stackInv_plainStep (c : Char) (st : PState) (stack : List PodFrame)
    (h : StackInv st.tokens stack) :
    StackInv (plainStep c st).tokens stack := by
  simp only [plainStep]
  split_ifs <;> first | exact h | exact stackInv_pushText _ _ h _

/-- The stray-angle-bracket step only pushes text, so it preserves the
frame-stack invariant. -/
theorem stackInv_strayStep (st : PState) (stack : List PodFrame)
    (h : StackInv st.tokens stack) :
    StackInv (strayStep st).tokens stack := by
  simp only [strayStep]
  split_ifs <;> exact stackInv_pushText _ _ h _

/-- The markup-open branch pushes the new frame's markup-start node, so the
invariant holds with the new frame on the stack. -/
theorem stackInv_inlineOpen (c : Char) (cs : List Char) (st : PState)
    (stack : List PodFrame) (h : StackInv st.tokens stack) :
    StackInv (inlineOpen c cs st).2.2.tokens
      ((inlineOpen c cs st).2.1 :: stack) :=
  stackInv_open st.tokens stack h (letterMtype st.lino c).1 []
    ((cs.takeWhile (fun ch => ch = '<')).length)

/-- Under the frame-stack invariant, the genuine markup-close branch never
throws the backward scan's `std::runtime_error`, and on success the
invariant holds for the popped stack. -/
theorem inlineClose_no_scan (mel : PodFrame) (cs : List Char) (st : PState)
    (srest : List PodFrame) (h : StackInv st.tokens (mel :: srest)) :
    inlineClose mel cs st ≠ Except.error Err.noPrecedingInlineMarkupStart ∧
    ∀ r, inlineClose mel cs st = Except.ok r → StackInv r.2.tokens srest := by
  unfold inlineClose
  cases hs : stripLastText st.tokens with
  | error e =>
      have he := stripLastText_error hs
      constructor
      · intro hcon
        cases hcon
        exact Err.noConfusion he
      · intro r hr
        exact Except.noConfusion hr
  | ok tokens1 =>
      have h1 : StackInv tokens1 (mel :: srest) :=
        stripLastText_ok_stackInv st.tokens (mel :: srest) tokens1 h hs
      cases hmt : mel.type with
      | escape =>
          refine ⟨by simp, ?_⟩
          intro r hr
          simp only [Except.ok.injEq] at hr
          rw [← hr]
          exact stackInv_close tokens1 mel srest h1 Mtype.escape [st.ecode]
      | index =>
          refine ⟨by simp, ?_⟩
          intro r hr
          simp only [Except.ok.injEq] at hr
          rw [← hr]
          exact stackInv_close tokens1 mel srest h1 Mtype.index _
      | link =>
          obtain ⟨toks2, hsome, hinv⟩ :=
            stackInv_close_link tokens1 mel srest h1 hmt st.link_content
          simp only []
          rw [hsome]
          refine ⟨by simp, ?_⟩
          intro r hr
          simp only [Except.ok.injEq] at hr
          rw [← hr]
          exact hinv
      | none =>
          refine ⟨by simp, ?_⟩
          intro r hr
          simp only [Except.ok.injEq] at hr
          rw [← hr]
          exact stackInv_close tokens1 mel srest h1 Mtype.none []
      | italic =>
          refine ⟨by simp, ?_⟩
          intro r hr
          simp only [Except.ok.injEq] at hr
          rw [← hr]
          exact stackInv_close tokens1 mel srest h1 Mtype.italic []
      | bold =>
          refine ⟨by simp, ?_⟩
          intro r hr
          simp only [Except.ok.injEq] at hr
          rw [← hr]
          exact stackInv_close tokens1 mel srest h1 Mtype.bold []
      | code =>
          refine ⟨by simp, ?_⟩
          intro r hr
          simp only [Except.ok.injEq] at hr
          rw [← hr]
          exact stackInv_close tokens1 mel srest h1 Mtype.code []
      | filename =>
          refine ⟨by simp, ?_⟩
          intro r hr
          simp only [Except.ok.injEq] at hr
          rw [← hr]
          exact stackInv_close tokens1 mel srest h1 Mtype.filename []
      | nbsp =>
          refine ⟨by simp, ?_⟩
          intro r hr
          simp only [Except.ok.injEq] at hr
          rw [← hr]
          exact stackInv_close tokens1 mel srest h1 Mtype.nbsp []
      | zap =>
          refine ⟨by simp, ?_⟩
          intro r hr
          simp only [Except.ok.injEq] at hr
          rw [← hr]
          exact stackInv_close tokens1 mel srest h1 Mtype.zap []

/-- The inline character loop never throws the backward link scan's
`std::runtime_error`: the frame-stack invariant is maintained through every
step, and a genuine Link close always finds its own open frame's
markup-start node. -/
theorem inlineGo_no_scan (fuel : Nat) :
    ∀ (cs : List Char) (stack : List PodFrame) (st : PState),
    StackInv st.tokens stack →
    inlineGo fuel cs stack st ≠ Except.error Err.noPrecedingInlineMarkupStart := by
  induction fuel with
  | zero =>
      intro cs stack st _h
      simp [inlineGo]
  | succ f ih =>
      intro cs stack st h
      cases cs with
      | nil => simp [inlineGo]
      | cons c cs' =>
          cases stack with
          | nil =>
              rw [inlineGo_cons_nil]
              by_cases hopen : cs'.head? = some '<'
              · rw [if_pos hopen]
                exact ih _ _ _ (stackInv_inlineOpen c cs' st [] h)
              · rw [if_neg hopen]
                exact ih _ _ _ (stackInv_plainStep c st [] h)
          | cons mel srest =>
              rw [inlineGo_cons_stack]
              by_cases hopen : cs'.head? = some '<'
              · rw [if_pos hopen]
                exact ih _ _ _ (stackInv_inlineOpen c cs' st (mel :: srest) h)
              · rw [if_neg hopen]
                by_cases hgt : c = '>'
                · rw [if_pos hgt]
                  by_cases hrun : (c :: cs').take mel.angle_count =
                      List.replicate mel.angle_count '>'
                  · rw [if_pos hrun]
                    cases hc : inlineClose mel cs' st with
                    | error e =>
                        have hno := (inlineClose_no_scan mel cs' st srest h).1
                        rw [hc] at hno
                        simpa using hno
                    | ok r =>
                        exact ih _ _ _
                          ((inlineClose_no_scan mel cs' st srest h).2 r hc)
                  · rw [if_neg hrun]
                    exact ih _ _ _ (stackInv_strayStep st (mel :: srest) h)
                · rw [if_neg hgt]
                  exact ih _ _ _ (stackInv_plainStep c st (mel :: srest) h)

/-- `parse_inline` never throws the backward link scan's
`std::runtime_error` (it starts the loop with an empty frame stack). -/
theorem parse_inline_no_scan (para : List Char) (st : PState) :
    parse_inline para st ≠ Except.error Err.noPrecedingInlineMarkupStart := by
  unfold parse_inline
  cases hg : inlineGo para.length para [] st with
  | error e =>
      have hno := inlineGo_no_scan para.length para [] st True.intro
      rw [hg] at hno
      simpa using hno
  | ok st' => simp

/-- `parse_ordinary` never throws the backward link scan's error. -/
theorem parse_ordinary_no_scan (ordinary : List Char) (st : PState) :
    parse_ordinary ordinary st ≠ Except.error Err.noPrecedingInlineMarkupStart := by
  simp only [parse_ordinary]
  split
  · rename_i e he
    intro hcon
    simp only [Except.error.injEq] at hcon
    rw [hcon] at he
    exact parse_inline_no_scan _ _ he
  · simp

/-- `substr` can only fail with the out-of-range exception. -/
theorem substrFromE_error {s : List Char} {pos : Nat} {e : Err}
    (h : substrFromE s pos = Except.error e) : e = Err.substrOutOfRange := by
  unfold substrFromE at h
  split at h
  · exact Except.noConfusion h
  · cases h; rfl

/-- The heading branches never throw the backward link scan's error. -/
theorem parse_head_no_scan (level : Nat) (command cmd : List Char)
    (st : PState) :
    parse_head level command cmd st ≠
      Except.error Err.noPrecedingInlineMarkupStart := by
  simp only [parse_head]
  split
  · rename_i e he
    intro hcon
    simp only [Except.error.injEq] at hcon
    rw [hcon] at he
    exact absurd (substrFromE_error he) (by decide)
  · split
    · rename_i e he
      intro hcon
      simp only [Except.error.injEq] at hcon
      rw [hcon] at he
      exact parse_inline_no_scan _ _ he
    · simp

/-- The `=item` branch never throws the backward link scan's error. -/
theorem parse_item_no_scan (args0 : List (List Char)) (st : PState) :
    parse_item args0 st ≠ Except.error Err.noPrecedingInlineMarkupStart := by
  simp only [parse_item]
  repeat' split
  all_goals first
    | (simp
       done)
    | (rename_i e he
       intro hcon
       simp only [Except.error.injEq] at hcon
       rw [hcon] at he
       exact parse_inline_no_scan _ _ he)

/-- A failing verbatim leading-whitespace strip can only raise the
out-of-range exception of `substr`. -/
theorem stripVerbatimLines_error (lead : Nat) (ls : List (List Char)) :
    ∀ (e : Err), stripVerbatimLines lead ls = Except.error e →
      e = Err.substrOutOfRange := by
  induction ls with
  | nil =>
      intro e h
      exact absurd h (by simp [stripVerbatimLines])
  | cons l rest ih =>
      intro e h
      simp only [stripVerbatimLines] at h
      cases hsub : substrFromE l lead with
      | error e' =>
          rw [hsub] at h
          simp only [Except.error.injEq] at h
          rw [← h]
          exact substrFromE_error hsub
      | ok l' =>
          rw [hsub] at h
          cases hrec : stripVerbatimLines lead rest with
          | error e2 =>
              rw [hrec] at h
              simp only [Except.error.injEq] at h
              rw [← h]
              exact ih e2 hrec
          | ok r =>
              rw [hrec] at h
              exact absurd h (by simp)

/-- `parse_verbatim` never throws the backward link scan's error. -/
theorem parse_verbatim_no_scan (verbatim : List Char) (st : PState) :
    parse_verbatim verbatim st ≠ Except.error Err.noPrecedingInlineMarkupStart := by
  simp only [parse_verbatim]
  repeat' split
  all_goals first
    | (simp
       done)
    | (rename_i e he
       intro hcon
       simp only [Except.error.injEq] at hcon
       rw [hcon] at he
       (try split at he) <;>
         first
           | exact absurd (stripVerbatimLines_error _ _ _ he) (by decide)
           | exact Except.noConfusion he)

/-- `parse_command` never throws the backward link scan's error: every
dispatch path either succeeds, raises one of the modelled C++ library
exceptions, or defers to a paragraph parse that starts with an empty frame
stack. -/
theorem parse_command_no_scan (command : List Char) (st : PState) :
    parse_command command st ≠ Except.error Err.noPrecedingInlineMarkupStart := by
  unfold parse_command
  cases hsp : splitWS (List.drop 1 command) with
  | nil =>
      simp only []
      intro hcon
      exact Err.noConfusion (Except.error.inj hcon)
  | cons cmd args =>
      simp only []
      by_cases h1 : cmd = "head1".data
      · rw [if_pos h1]; exact parse_head_no_scan 1 command cmd st
      rw [if_neg h1]
      by_cases h2 : cmd = "head2".data
      · rw [if_pos h2]; exact parse_head_no_scan 2 command cmd st
      rw [if_neg h2]
      by_cases h3 : cmd = "head3".data
      · rw [if_pos h3]; exact parse_head_no_scan 3 command cmd st
      rw [if_neg h3]
      by_cases h4 : cmd = "head4".data
      · rw [if_pos h4]; exact parse_head_no_scan 4 command cmd st
      rw [if_neg h4]
      by_cases h5 : cmd = "pod".data
      · rw [if_pos h5]; simp
      rw [if_neg h5]
      by_cases h6 : cmd = "cut".data
      · rw [if_pos h6]; simp
      rw [if_neg h6]
      by_cases h7 : cmd = "over".data
      · rw [if_pos h7]
        cases args with
        | nil => simp
        | cons a rest =>
            simp only []
            by_cases hst : stofAccepts a = true
            · rw [if_pos hst]; simp
            · rw [if_neg hst]
              intro hcon
              exact Err.noConfusion (Except.error.inj hcon)
      rw [if_neg h7]
      by_cases h8 : cmd = "item".data
      · rw [if_pos h8]; exact parse_item_no_scan args st
      rw [if_neg h8]
      by_cases h9 : cmd = "back".data
      · rw [if_pos h9]
        cases hfp : findPrecItemRev st.tokens.reverse 0 <;> simp
      rw [if_neg h9]
      by_cases h10 : cmd = "begin".data
      · rw [if_pos h10]
        cases args with
        | nil =>
            simp only []
            intro hcon
            exact Err.noConfusion (Except.error.inj hcon)
        | cons a rest => simp
      rw [if_neg h10]
      by_cases h11 : cmd = "=for".data
      · rw [if_pos h11]
        cases args with
        | nil => simp
        | cons formatname rest =>
            simp only []
            by_cases hcol : formatname.headD '\x00' = ':'
            · rw [if_pos hcol]
              cases hp : parse_inline (join_vectorstr rest [' '])
                  { st with tokens := st.tokens ++ [PodNode.paraStart] } with
              | error e =>
                  have hno := parse_inline_no_scan (join_vectorstr rest [' '])
                    { st with tokens := st.tokens ++ [PodNode.paraStart] }
                  rw [hp] at hno
                  simpa using hno
              | ok st2 => simp
            · rw [if_neg hcol]; simp
      rw [if_neg h11]
      by_cases h12 : cmd = "encoding".data
      · rw [if_pos h12]; simp
      · rw [if_neg h12]; simp

/-- `parse_line` never throws the backward link scan's error. -/
theorem parse_line_no_scan (line : List Char) (st : PState) :
    parse_line line st ≠ Except.error Err.noPrecedingInlineMarkupStart := by
  unfold parse_line
  cases hm : st.mode with
  | command =>
      simp only []
      by_cases hl : line = []
      · rw [if_pos hl]
        cases hc : parse_command st.current_buffer st with
        | error e =>
            have hno := parse_command_no_scan st.current_buffer st
            rw [hc] at hno
            simpa using hno
        | ok st2 => simp
      · rw [if_neg hl]; simp
  | ordinary =>
      simp only []
      by_cases hl : line = []
      · rw [if_pos hl]
        cases hc : parse_ordinary st.current_buffer st with
        | error e =>
            have hno := parse_ordinary_no_scan st.current_buffer st
            rw [hc] at hno
            simpa using hno
        | ok st2 => simp
      · rw [if_neg hl]; simp
  | verbatim =>
      simp only []
      by_cases hl : line = []
      · rw [if_pos hl]
        cases hc : parse_verbatim st.current_buffer st with
        | error e =>
            have hno := parse_verbatim_no_scan st.current_buffer st
            rw [hc] at hno
            simpa using hno
        | ok st2 => simp
      · rw [if_neg hl]; simp
  | data =>
      simp only []
      by_cases hl : line = st.data_end_tag
      · rw [if_pos hl]; simp
      · rw [if_neg hl]; simp
  | cut =>
      simp only []
      by_cases hl : line = "=pod".data
      · rw [if_pos hl]; simp
      · rw [if_neg hl]; simp
  | none =>
      simp only []
      by_cases hc0 : line.headD '\x00' = '\x00'
      · rw [if_pos hc0]; simp
      rw [if_neg hc0]
      by_cases hc1 : line.headD '\x00' = '='
      · rw [if_pos hc1]; simp
      rw [if_neg hc1]
      by_cases hc2 : line.headD '\x00' = ' ' ∨ line.headD '\x00' = '\t'
      · rw [if_pos hc2]; simp
      · rw [if_neg hc2]; simp

/-- The line loop never throws the backward link scan's error. -/
theorem ParseLines_no_scan (ls : List (List Char)) : ∀ (st : PState),
    ParseLines ls st ≠ Except.error Err.noPrecedingInlineMarkupStart := by
  induction ls with
  | nil =>
      intro st
      simp [ParseLines]
  | cons l rest ih =>
      intro st
      unfold ParseLines
      cases hp : parse_line l { st with lino := st.lino + 1 } with
      | error e =>
          have hno := parse_line_no_scan l { st with lino := st.lino + 1 }
          rw [hp] at hno
          simpa using hno
      | ok st' => exact ih st'

/-- C9: confirmed.  For every input document, the parse never aborts with
the `std::runtime_error` of `find_preceeding_inline_markup_start`: the
inline engine maintains the frame-stack invariant, so whenever it performs
a genuine Link close the backward scan finds that frame's own markup-start
node still in the token stream. -/
theorem C9_link_scan_never_fails (src : List Char) :
    isLinkScanError (Parse src) = false := by
  unfold Parse
  split_ifs with h
  · rfl
  · cases hp : ParseLines (getlines src) initState with
    | error e =>
        have hno := ParseLines_no_scan (getlines src) initState
        rw [hp] at hno
        cases e <;> first | rfl | exact absurd rfl hno
    | ok st1 =>
        show isLinkScanError (parse_line [] st1) = false
        cases hq : parse_line [] st1 with
        | error e =>
            have hno := parse_line_no_scan [] st1
            rw [hq] at hno
            cases e <;> first | rfl | exact absurd rfl hno
        | ok st2 => rfl

end Pod
